import Mathlib

/-!
# A verification model of the ChakraCore time-travel-debugging event log

This file gives a shallow embedding, in Lean 4, of the core data structures and
operations of `lib/Runtime/Debug/TTEventLog.cpp` (the time-travel record/replay
event log of node-chakracore), together with theorems settling the specified
properties of that code.

Conventions used throughout:
* the C++ doubly-linked block chain of `TTEventList` is represented as a
  `List` of blocks ordered from oldest (the `Previous`-most block) to newest
  (`m_headBlock` is the last element);
* `int64` counters are represented as `Int`, `uint32` sizes as `Nat`;
* enumerations and structs that are declared in headers outside the sampled
  translation units are reconstructed from the specification and from the way
  `TTEventLog.cpp` uses them; such definitions carry a doc comment starting
  with `Modelled from the spec:`;
* functions whose C++ body can fire a `TTDAssert` are modelled as returning
  `Option` (`none` exactly when an assertion would fire).
-/

namespace TTD

/-- Event kind discriminants.  The enum itself is declared in a header outside
the sampled sources; the constructor list is exactly the set of kinds given a
row in the event vtable built by `EventLog::InitializeEventListVTable`
(TTEventLog.cpp, lines 512-598, `!INT32VAR` configuration). -/
inductive EventKind where
  | SnapshotTag
  | EventLoopYieldPointTag
  | TopLevelCodeTag
  | TelemetryLogTag
  | DoubleTag
  | StringTag
  | RandomSeedTag
  | PropertyEnumTag
  | SymbolCreationTag
  | ExternalCbRegisterCall
  | ExternalCallTag
  | ExplicitLogWriteTag
  | CreateScriptContextActionTag
  | SetActiveScriptContextActionTag
  | DeadScriptContextActionTag
  | CreateIntegerActionTag
  | CreateNumberActionTag
  | CreateBooleanActionTag
  | CreateStringActionTag
  | CreateSymbolActionTag
  | CreateErrorActionTag
  | CreateRangeErrorActionTag
  | CreateReferenceErrorActionTag
  | CreateSyntaxErrorActionTag
  | CreateTypeErrorActionTag
  | CreateURIErrorActionTag
  | VarConvertToNumberActionTag
  | VarConvertToBooleanActionTag
  | VarConvertToStringActionTag
  | VarConvertToObjectActionTag
  | AddRootRefActionTag
  | RemoveRootRefActionTag
  | AllocateObjectActionTag
  | AllocateExternalObjectActionTag
  | AllocateArrayActionTag
  | AllocateArrayBufferActionTag
  | AllocateExternalArrayBufferActionTag
  | AllocateFunctionActionTag
  | HostExitProcessTag
  | GetAndClearExceptionActionTag
  | SetExceptionActionTag
  | HasPropertyActionTag
  | InstanceOfActionTag
  | EqualsActionTag
  | GetPropertyIdFromSymbolTag
  | GetPrototypeActionTag
  | GetPropertyActionTag
  | GetIndexActionTag
  | GetOwnPropertyInfoActionTag
  | GetOwnPropertyNamesInfoActionTag
  | GetOwnPropertySymbolsInfoActionTag
  | DefinePropertyActionTag
  | DeletePropertyActionTag
  | SetPrototypeActionTag
  | SetPropertyActionTag
  | SetIndexActionTag
  | GetTypedArrayInfoActionTag
  | RawBufferCopySync
  | RawBufferModifySync
  | RawBufferAsyncModificationRegister
  | RawBufferAsyncModifyComplete
  | ConstructCallActionTag
  | CallbackOpActionTag
  | CodeParseActionTag
  | CallExistingFunctionActionTag
  deriving DecidableEq

/-- The calling-convention marker stored in each vtable row
(`NSLogEvents::ContextExecuteKind`). -/
inductive ContextExecuteKind where
  | None
  | GlobalAPIWrapper
  | ContextAPIWrapper
  | ContextAPINoScriptWrapper
  deriving DecidableEq

/-- Whether the vtable row for a kind has a non-null `UnloadFP`.  Transcribed
row by row from `EventLog::InitializeEventListVTable` (TTEventLog.cpp
lines 516-597): a row's unload slot is non-null exactly for the kinds below. -/
def vtableHasUnloadFP : EventKind → Bool
  | .SnapshotTag => true
  | .TelemetryLogTag => true
  | .StringTag => true
  | .PropertyEnumTag => true
  | .ExternalCallTag => true
  | .CreateScriptContextActionTag => true
  | .DeadScriptContextActionTag => true
  | .CreateStringActionTag => true
  | .AllocateExternalArrayBufferActionTag => true
  | .RawBufferModifySync => true
  | .RawBufferAsyncModificationRegister => true
  | .RawBufferAsyncModifyComplete => true
  | .ConstructCallActionTag => true
  | .CallbackOpActionTag => true
  | .CodeParseActionTag => true
  | .CallExistingFunctionActionTag => true
  | _ => false

/-- The calling-convention marker of each vtable row, transcribed row by row
from `EventLog::InitializeEventListVTable` (TTEventLog.cpp lines 516-597). -/
def vtableContextKind : EventKind → ContextExecuteKind
  | .SnapshotTag => .GlobalAPIWrapper
  | .EventLoopYieldPointTag => .GlobalAPIWrapper
  | .TopLevelCodeTag => .None
  | .TelemetryLogTag => .None
  | .DoubleTag => .None
  | .StringTag => .None
  | .RandomSeedTag => .None
  | .PropertyEnumTag => .None
  | .SymbolCreationTag => .None
  | .ExternalCbRegisterCall => .None
  | .ExternalCallTag => .None
  | .ExplicitLogWriteTag => .None
  | .CreateScriptContextActionTag => .GlobalAPIWrapper
  | .SetActiveScriptContextActionTag => .GlobalAPIWrapper
  | .DeadScriptContextActionTag => .None
  | .CreateIntegerActionTag => .ContextAPINoScriptWrapper
  | .CreateNumberActionTag => .ContextAPINoScriptWrapper
  | .CreateBooleanActionTag => .ContextAPINoScriptWrapper
  | .CreateStringActionTag => .ContextAPINoScriptWrapper
  | .CreateSymbolActionTag => .ContextAPIWrapper
  | .CreateErrorActionTag => .ContextAPIWrapper
  | .CreateRangeErrorActionTag => .ContextAPIWrapper
  | .CreateReferenceErrorActionTag => .ContextAPIWrapper
  | .CreateSyntaxErrorActionTag => .ContextAPIWrapper
  | .CreateTypeErrorActionTag => .ContextAPIWrapper
  | .CreateURIErrorActionTag => .ContextAPIWrapper
  | .VarConvertToNumberActionTag => .ContextAPIWrapper
  | .VarConvertToBooleanActionTag => .ContextAPIWrapper
  | .VarConvertToStringActionTag => .ContextAPIWrapper
  | .VarConvertToObjectActionTag => .ContextAPIWrapper
  | .AddRootRefActionTag => .GlobalAPIWrapper
  | .RemoveRootRefActionTag => .GlobalAPIWrapper
  | .AllocateObjectActionTag => .ContextAPINoScriptWrapper
  | .AllocateExternalObjectActionTag => .ContextAPINoScriptWrapper
  | .AllocateArrayActionTag => .ContextAPINoScriptWrapper
  | .AllocateArrayBufferActionTag => .ContextAPIWrapper
  | .AllocateExternalArrayBufferActionTag => .ContextAPINoScriptWrapper
  | .AllocateFunctionActionTag => .ContextAPIWrapper
  | .HostExitProcessTag => .ContextAPIWrapper
  | .GetAndClearExceptionActionTag => .None
  | .SetExceptionActionTag => .ContextAPINoScriptWrapper
  | .HasPropertyActionTag => .ContextAPIWrapper
  | .InstanceOfActionTag => .ContextAPIWrapper
  | .EqualsActionTag => .ContextAPIWrapper
  | .GetPropertyIdFromSymbolTag => .ContextAPINoScriptWrapper
  | .GetPrototypeActionTag => .ContextAPIWrapper
  | .GetPropertyActionTag => .ContextAPIWrapper
  | .GetIndexActionTag => .ContextAPIWrapper
  | .GetOwnPropertyInfoActionTag => .ContextAPIWrapper
  | .GetOwnPropertyNamesInfoActionTag => .ContextAPIWrapper
  | .GetOwnPropertySymbolsInfoActionTag => .ContextAPIWrapper
  | .DefinePropertyActionTag => .ContextAPIWrapper
  | .DeletePropertyActionTag => .ContextAPIWrapper
  | .SetPrototypeActionTag => .ContextAPIWrapper
  | .SetPropertyActionTag => .ContextAPIWrapper
  | .SetIndexActionTag => .ContextAPIWrapper
  | .GetTypedArrayInfoActionTag => .None
  | .RawBufferCopySync => .ContextAPIWrapper
  | .RawBufferModifySync => .ContextAPIWrapper
  | .RawBufferAsyncModificationRegister => .ContextAPIWrapper
  | .RawBufferAsyncModifyComplete => .ContextAPIWrapper
  | .ConstructCallActionTag => .ContextAPIWrapper
  | .CallbackOpActionTag => .None
  | .CodeParseActionTag => .ContextAPINoScriptWrapper
  | .CallExistingFunctionActionTag => .ContextAPIWrapper

/-- Modelled from the spec: an event record (`NSLogEvents::EventLogEntry`,
declared in a header outside the sampled sources) carries its `EventKind`
discriminant, its `EventTimeStamp` (int64, strictly increasing, assigned at
record-creation time), a result-status slot, and a kind-specific inline
payload.  The payload is kept opaque as a bit pattern (`Payload`) except for
the pieces `TTEventLog.cpp` itself inspects: a snapshot event's
`RestoreTimestamp`, a call-function action's `CallEventTime` and
`CallbackDepth`, and whether its lazily computed restore-to-here snapshot
(`RtRSnap`) is present. -/
structure EventLogEntry where
  EventKind : EventKind
  EventTimeStamp : Int
  RestoreTimestamp : Int := 0
  CallEventTime : Int := 0
  CallbackDepth : Nat := 0
  HasRtrSnap : Bool := false
  ResultStatus : Int := 0
  Payload : Nat := 0
  deriving DecidableEq

instance : Inhabited EventLogEntry :=
  ⟨{ EventKind := .SnapshotTag, EventTimeStamp := 0 }⟩

/-- Modelled from the spec: `NSLogEvents::IsJsRTActionRootCall` (declared
outside the sampled sources) holds for a call-existing-function action at
callback depth 0 — a top-level, host-initiated entry point into script
execution. -/
def IsJsRTActionRootCall (e : EventLogEntry) : Bool :=
  e.EventKind = .CallExistingFunctionActionTag && e.CallbackDepth = 0

/-- Modelled from the spec: `NSLogEvents::AccessTimeInRootCallOrSnapshot`
(declared outside the sampled sources) reports whether the entry is a snapshot
(time = its `RestoreTimestamp`) or a root call (time = its `CallEventTime`),
and whether a root call has a restore-to-here snapshot attached.  Result is
`(isSnap, isRoot, hasRtrSnap, time)`. -/
def AccessTimeInRootCallOrSnapshot (e : EventLogEntry) : Bool × Bool × Bool × Int :=
  if e.EventKind = .SnapshotTag then
    (true, false, false, e.RestoreTimestamp)
  else if IsJsRTActionRootCall e then
    (false, true, e.HasRtrSnap, e.CallEventTime)
  else
    (false, false, false, 0)

/-! ## The event list (`TTD::TTEventList`)

The C++ event list is a doubly-linked chain of fixed-capacity blocks
(`TTEventListLink`), with `m_headBlock` the newest block and `Previous`
pointers leading to the oldest.  We represent the chain as a `List` of blocks
ordered oldest first, so the C++ `m_headBlock` is the `List.getLast` and
walking `Previous` pointers is walking towards the list head. -/

/-- `TTD_EVENTLOG_LIST_BLOCK_SIZE`: the fixed block capacity, a constant from
the support header outside the sampled sources.  None of the verified
properties depend on its exact value (only on it being positive). -/
def TTD_EVENTLOG_LIST_BLOCK_SIZE : Nat := 512

/-- One block of the event list (`TTD::TTEventList::TTEventListLink`).
`BlockData` is the fixed-capacity array, and `StartPos`/`CurrPos` bound the
live records `[StartPos, CurrPos)` within it.  The `Next`/`Previous` pointers
of the C++ struct are represented by the position of the block in the
enclosing `List`. -/
structure TTEventListLink where
  BlockData : List EventLogEntry
  StartPos : Nat
  CurrPos : Nat
  deriving DecidableEq

/-- The event list: blocks ordered from oldest to newest (C++ `m_headBlock`
is the last element; an empty list is the `m_headBlock == nullptr` state). -/
abbrev TTEventList := List TTEventListLink

/-- The live records of one block: `BlockData[StartPos..CurrPos)`. -/
def blockLive (b : TTEventListLink) : List EventLogEntry :=
  (b.BlockData.take b.CurrPos).drop b.StartPos

/-- The live records of the whole list, oldest first — the sequence an
iterator starting at `GetIteratorAtFirst` visits via `MoveNext`. -/
def liveEntries (l : TTEventList) : List EventLogEntry :=
  (l.map blockLive).flatten

/-- Well-formedness of one block: the backing array has the fixed capacity and
the live range is non-empty and within bounds.  (Blocks are created full of
zeroed slots, receive their first record immediately, and are reclaimed by
`RemoveArrayLink` as soon as they drain, so every block in a quiescent list
holds at least one live record.) -/
def WFLink (b : TTEventListLink) : Prop :=
  b.BlockData.length = TTD_EVENTLOG_LIST_BLOCK_SIZE ∧
    b.StartPos < b.CurrPos ∧ b.CurrPos ≤ TTD_EVENTLOG_LIST_BLOCK_SIZE

instance (b : TTEventListLink) : Decidable (WFLink b) := by
  unfold WFLink; infer_instance

/-- Well-formedness of the whole list. -/
def WFList (l : TTEventList) : Prop := ∀ b ∈ l, WFLink b

instance (l : TTEventList) : Decidable (WFList l) := by
  unfold WFList; exact List.decidableBAll _ l

/-- The freshly linked, zeroed block built by `AddArrayLink` (the C++
`memset(newHeadBlock->BlockData, 0, ...)` with `CurrPos = StartPos = 0`). -/
def freshBlock : TTEventListLink :=
  { BlockData := List.replicate TTD_EVENTLOG_LIST_BLOCK_SIZE default,
    StartPos := 0, CurrPos := 0 }

/-- `TTEventList::AddArrayLink` (TTEventLog.cpp 115-133): link a fresh zeroed
block at the newest end of the chain. -/
def AddArrayLink (l : TTEventList) : TTEventList := l ++ [freshBlock]

/-- Apply `f` to the newest block (`m_headBlock`) of a non-empty chain. -/
def updateLastLink (f : TTEventListLink → TTEventListLink) (l : TTEventList) : TTEventList :=
  l.dropLast ++ (l.getLast?.map f).toList

/-- Write record `e` into the slot `BlockData + CurrPos` of a block and
advance `CurrPos` (the effect of a caller filling the slot returned by
`GetNextAvailableEntry`). -/
def writeSlot (e : EventLogEntry) (b : TTEventListLink) : TTEventListLink :=
  { b with BlockData := b.BlockData.set b.CurrPos e, CurrPos := b.CurrPos + 1 }

/-- `TTEventList::GetNextAvailableEntry` (TTEventLog.cpp 195-206) combined
with the caller filling the returned slot: if there is no block or the newest
block is full, link a new block; then write the record at `CurrPos` of the
newest block and advance `CurrPos`. -/
def GetNextAvailableEntry (l : TTEventList) (e : EventLogEntry) : TTEventList :=
  let needNew : Bool :=
    match l.getLast? with
    | none => true
    | some b => b.CurrPos = TTD_EVENTLOG_LIST_BLOCK_SIZE
  let l' := if needNew then AddArrayLink l else l
  updateLastLink (writeSlot e) l'

/-- `TTEventList::DeleteFirstEntry` (TTEventLog.cpp 208-224) at the list's
oldest end (the only way `EventLog::PruneLogLength` invokes it): unload the
record at the first block's `StartPos` (when its vtable row has an
`UnloadFP`), advance `StartPos`, and reclaim the block via `RemoveArrayLink`
once drained.  Returns the unload calls made and the new list. -/
def DeleteFirstEntry : TTEventList → List EventLogEntry × TTEventList
  | [] => ([], [])
  | b :: rest =>
    let e := b.BlockData.getD b.StartPos default
    let unl := if vtableHasUnloadFP e.EventKind then [e] else []
    let b' : TTEventListLink := { b with StartPos := b.StartPos + 1 }
    if b'.StartPos = b'.CurrPos then (unl, rest) else (unl, b' :: rest)

/-- `TTEventList::UnloadEventList` (TTEventLog.cpp 159-193): walk the chain
from the oldest block, unload every record in each block's live range
`[StartPos, CurrPos)` whose vtable row has an `UnloadFP`, and reclaim every
block.  Returns the unload calls made and the (empty) resulting list. -/
def UnloadEventList (l : TTEventList) : List EventLogEntry × TTEventList :=
  ((l.map (fun b => (blockLive b).filter (fun e => vtableHasUnloadFP e.EventKind))).flatten, [])

/-- `TTEventList::Count` (TTEventLog.cpp 231-241): sum of `CurrPos - StartPos`
over the blocks. -/
def TTEventListCount (l : TTEventList) : Nat :=
  l.foldr (fun b c => (b.CurrPos - b.StartPos) + c) 0

/-- `TTEventList::IsEmpty` (TTEventLog.cpp 226-229): no blocks. -/
def TTEventListIsEmpty (l : TTEventList) : Bool := l.isEmpty

/-- Repeated `DeleteFirstEntry` (the delete loop of `EventLog::PruneLogLength`,
TTEventLog.cpp 1787-1795, which deletes oldest entries one at a time):
`n` deletions, collecting the unload calls. -/
def deleteFirstN : Nat → TTEventList → List EventLogEntry × TTEventList
  | 0, l => ([], l)
  | n + 1, l =>
    let p := DeleteFirstEntry l
    let q := deleteFirstN n p.2
    (p.1 ++ q.1, q.2)

/-! ## Pruning (`EventLog::PruneLogLength`) -/

/-- Whether a record is a snapshot event. -/
def isSnapshotEvent (e : EventLogEntry) : Bool := e.EventKind = .SnapshotTag

/-- The backward scan of `EventLog::PruneLogLength` (TTEventLog.cpp
1770-1783).  `newestFirst` is the live sequence visited by the backward
iterator starting at `GetIteratorAtLast` (newest entry first); `visited`
counts the entries visited so far.  At each entry the loop decrements
`maxEvents` if the entry is a snapshot, and stops *without moving* once
`maxEvents` reaches 0; the result is the number of entries from the tail up to
and including the stop entry, or `none` when the iterator runs off the oldest
end first (fewer than `maxEvents` snapshots in the list). -/
def pruneScanTail (maxEvents : Nat) : List EventLogEntry → Nat → Option Nat
  | [], _ => none
  | e :: older, visited =>
    let m' := if isSnapshotEvent e then maxEvents - 1 else maxEvents
    if m' = 0 then some (visited + 1) else pruneScanTail m' older (visited + 1)

/-- `EventLog::PruneLogLength` (TTEventLog.cpp 1767-1797).  The backward scan
finds the stop entry (the `SnapHistoryLength`-th newest snapshot); when it is
found with `kept` entries at or after it, the delete loop (`while
delIter.Current() != tailIter.Current()`, a pointer comparison that stops at
exactly that entry) removes the `length - kept` oldest entries one at a time
via `DeleteFirstEntry`.  When `snapHistoryLength = 0` the scan loop never
runs, so the stop entry is the newest entry itself (when one exists); when
the scan runs off the oldest end nothing is deleted. -/
def PruneLogLength (snapHistoryLength : Nat) (l : TTEventList) : TTEventList :=
  match (if (liveEntries l).isEmpty then none
         else if snapHistoryLength = 0 then some 1
         else pruneScanTail snapHistoryLength (liveEntries l).reverse 0) with
  | some kept => (deleteFirstN ((liveEntries l).length - kept) l).2
  | none => l

/-- One full prune-to-empty cycle for claim-level reasoning: `n` calls of
`DeleteFirstEntry` followed by a final `UnloadEventList`; result is the
sequence of unload invocations made, in order. -/
def pruneToEmptyCycleUnloads (n : Nat) (l : TTEventList) : List EventLogEntry :=
  (deleteFirstN n l).1 ++ (UnloadEventList (deleteFirstN n l).2).1

/-! ## Snapshot search (`EventLog::FindSnapTimeForEventTime`) -/

/-- Whether an entry qualifies as a restore point for
`FindSnapTimeForEventTime`: `isSnap | (isRoot & hasRtrSnap)`
(TTEventLog.cpp 1860). -/
def validSnapEntry (e : EventLogEntry) : Bool :=
  let a := AccessTimeInRootCallOrSnapshot e
  a.1 || (a.2.1 && a.2.2.1)

/-- The restore time reported by `AccessTimeInRootCallOrSnapshot`. -/
def snapEntryTime (e : EventLogEntry) : Int :=
  (AccessTimeInRootCallOrSnapshot e).2.2.2

/-- The restore times of the qualifying entries of a live sequence, in
position order. -/
def validSnapTimes (entries : List EventLogEntry) : List Int :=
  (entries.filter validSnapEntry).map snapEntryTime

/-- The first element `≤ T` of a list, or `-1`; on a descending list this is
the maximum element `≤ T`. -/
def firstTimeLE (T : Int) : List Int → Int
  | [] => -1
  | t :: rest => if t ≤ T then t else firstTimeLE T rest

/-- The search loop of `EventLog::FindSnapTimeForEventTime` (TTEventLog.cpp
1853-1866) over the live entries visited newest first: return the restore time
of the first qualifying entry with time `≤ targetTime`, else fall through to
`-1`. -/
def findSnapLoop (targetTime : Int) : List EventLogEntry → Int
  | [] => -1
  | e :: older =>
    if validSnapEntry e && decide (snapEntryTime e ≤ targetTime) then snapEntryTime e
    else findSnapLoop targetTime older

/-- `EventLog::FindSnapTimeForEventTime` (TTEventLog.cpp 1845-1885), primary
return value (`snapTime`).  The `optEndSnapTime` out-parameter is computed by
an independent second loop and does not influence the returned `snapTime`;
callers of the claim pass `nullptr` for it. -/
def FindSnapTimeForEventTime (l : TTEventList) (targetTime : Int) : Int :=
  findSnapLoop targetTime (liveEntries l).reverse

/-! ## The record path and the event-time counter -/

/-- The pieces of `EventLog` state involved in stamping records:
`m_eventTimeCtr` and `m_eventList`. -/
structure EventLogRecordState where
  eventTimeCtr : Int
  eventList : TTEventList
  deriving DecidableEq

/-- `EventLog::GetCurrentEventTimeAndAdvance` (TTEventLog.cpp 364-367):
`return this->m_eventTimeCtr++`. -/
def GetCurrentEventTimeAndAdvance (s : EventLogRecordState) : Int × EventLogRecordState :=
  (s.eventTimeCtr, { s with eventTimeCtr := s.eventTimeCtr + 1 })

/-- Modelled from the spec: `RecordGetInitializedEvent` (a template in the
event-log header outside the sampled sources) obtains the next writable slot
via `TTEventList::GetNextAvailableEntry` and stamps it with
`GetCurrentEventTimeAndAdvance()` — the `EventTimeStamp` is assigned at
record-creation time from the strictly increasing counter.  A snapshot
record's `RestoreTimestamp` and a root call's `CallEventTime` are filled by
the caller with `GetLastEventTime()`, the stamp just assigned. -/
def RecordGetInitializedEvent (k : EventKind) (payload : Nat)
    (s : EventLogRecordState) : EventLogRecordState :=
  let t := (GetCurrentEventTimeAndAdvance s).1
  let s' := (GetCurrentEventTimeAndAdvance s).2
  let entry : EventLogEntry :=
    { EventKind := k, EventTimeStamp := t, RestoreTimestamp := t,
      CallEventTime := t, Payload := payload }
  { s' with eventList := GetNextAvailableEntry s'.eventList entry }

/-- One operation of a single `EventLog` instance that touches the event list
during recording: recording an event of some kind, or pruning. -/
inductive RecordOp where
  | record (k : EventKind) (payload : Nat)
  | prune (snapHistoryLength : Nat)
  deriving DecidableEq

/-- Run one record operation; also report the `EventTimeStamp` values the
operation assigned (for the never-reused property). -/
def runRecordOp (op : RecordOp) (s : EventLogRecordState) :
    EventLogRecordState × List Int :=
  match op with
  | .record k payload => (RecordGetInitializedEvent k payload s, [s.eventTimeCtr])
  | .prune n => ({ s with eventList := PruneLogLength n s.eventList }, [])

/-- Run a sequence of record operations, concatenating the assigned stamps. -/
def runRecordOps : List RecordOp → EventLogRecordState → EventLogRecordState × List Int
  | [], s => (s, [])
  | op :: ops, s =>
    let p := runRecordOp op s
    let q := runRecordOps ops p.1
    (q.1, p.2 ++ q.2)

/-- A freshly constructed `EventLog` (TTEventLog.cpp 600-621):
`m_eventTimeCtr = 0` and an empty event list. -/
def initRecordState : EventLogRecordState := { eventTimeCtr := 0, eventList := [] }

/-- The stamps of the live records, oldest first. -/
def eventTimes (l : TTEventList) : List Int :=
  (liveEntries l).map EventLogEntry.EventTimeStamp

/-- Adjacent live records carry consecutive stamps (each record-creation
consumes exactly one counter value, and pruning only drops a prefix). -/
def consecutiveTimestamps (entries : List EventLogEntry) : Prop :=
  List.Chain' (fun a b => b.EventTimeStamp = a.EventTimeStamp + 1) entries

def consecutiveTimestampsB : List EventLogEntry → Bool
  | [] => true
  | [_] => true
  | a :: b :: rest =>
      (b.EventTimeStamp == a.EventTimeStamp + 1) && consecutiveTimestampsB (b :: rest)

theorem consecutiveTimestampsB_iff :
    ∀ entries : List EventLogEntry,
      consecutiveTimestampsB entries = true ↔ consecutiveTimestamps entries
  | [] => by simp [consecutiveTimestampsB, consecutiveTimestamps]
  | [_] => by simp [consecutiveTimestampsB, consecutiveTimestamps]
  | a :: b :: rest => by
      unfold consecutiveTimestampsB consecutiveTimestamps
      rw [List.chain'_cons, Bool.and_eq_true, beq_iff_eq]
      exact and_congr Iff.rfl (consecutiveTimestampsB_iff (b :: rest))

instance (entries : List EventLogEntry) : Decidable (consecutiveTimestamps entries) :=
  decidable_of_iff _ (consecutiveTimestampsB_iff entries)

/-! ## The replay path -/

/-- The pieces of `EventLog` state driving replay: `m_eventTimeCtr` and
`m_currentReplayEventIterator`.  During replay the event list is fixed, so the
iterator is represented as an index `pos` into the live sequence `entries`
(oldest first); `MoveNext` past the newest entry leaves the iterator invalid
(`pos = entries.length`), as the C++ iterator's `m_currLink` becomes null. -/
structure ReplayState where
  eventTimeCtr : Int
  entries : List EventLogEntry
  pos : Nat
  deriving DecidableEq

/-- `TTEventList::Iterator::IsValid` (TTEventLog.cpp 274-277) for the replay
iterator. -/
def replayIterValid (s : ReplayState) : Bool := s.pos < s.entries.length

/-- `TTEventList::Iterator::Current` — only meaningful when the iterator is
valid. -/
def replayCurrent (s : ReplayState) : EventLogEntry := s.entries.getD s.pos default

/-- `EventLog::AdvanceTimeAndPositionForReplay` (TTEventLog.cpp 369-377):
`m_eventTimeCtr++` and `m_currentReplayEventIterator.MoveNext()`. -/
def AdvanceTimeAndPositionForReplay (s : ReplayState) : ReplayState :=
  { s with eventTimeCtr := s.eventTimeCtr + 1, pos := s.pos + 1 }

/-- The control-transfer exception `TTD::TTDebuggerAbortException` (declared
outside the sampled sources; modelled from the spec: a distinguished exception
type carrying structured data — an end-of-log marker or a target time and
move mode with a human-readable reason). -/
inductive TTDebuggerAbortException where
  | abortEndOfLog (msg : String)
  | topLevelAbort (targetEventTime : Int) (moveMode : Int) (msg : String)
  deriving DecidableEq

/-- `EventLog::AbortReplayReturnToHost` (TTEventLog.cpp 507-510) throws
`TTDebuggerAbortException::CreateAbortEndOfLog`. -/
def CreateAbortEndOfLog : TTDebuggerAbortException :=
  .abortEndOfLog "End of log reached -- returning to top-level."

/-- `EventLog::ReplaySnapshotEvent` (TTEventLog.cpp 457-498) with
`ENABLE_SNAPSHOT_COMPARE` off: advance time and position. -/
def ReplaySnapshotEvent (s : ReplayState) : ReplayState :=
  AdvanceTimeAndPositionForReplay s

/-- `EventLog::ReplayEventLoopYieldPointEvent` (TTEventLog.cpp 500-505):
clear the transient local roots (host state outside this model), then advance
time and position. -/
def ReplayEventLoopYieldPointEvent (s : ReplayState) : ReplayState :=
  AdvanceTimeAndPositionForReplay s

/-- `EventLog::ReplaySingleActionEventEntry` (TTEventLog.cpp 2202-2333): if
the replay iterator is invalid, abort back to the host *before* reading the
current event; otherwise read the current event, advance time and position,
and dispatch the event's execute function wrapped per its vtable row's
calling-convention marker (the execute functions act on the script heap,
outside the log model, and do not move the replay iterator of this entry). -/
def ReplaySingleActionEventEntry (s : ReplayState) :
    Except TTDebuggerAbortException ReplayState :=
  if replayIterValid s then
    let evt := replayCurrent s
    let s' := AdvanceTimeAndPositionForReplay s
    match vtableContextKind evt.EventKind with
    | _ => Except.ok s'
  else Except.error CreateAbortEndOfLog

/-- `EventLog::ReplaySingleRootEntry` (TTEventLog.cpp 2166-2192): if the
replay iterator is invalid, abort back to the host *before* reading the
current event; otherwise dispatch on the current event's kind — snapshot and
event-loop-yield-point entries advance directly, everything else goes through
`ReplaySingleActionEventEntry`. -/
def ReplaySingleRootEntry (s : ReplayState) :
    Except TTDebuggerAbortException ReplayState :=
  if replayIterValid s then
    let eKind := (replayCurrent s).EventKind
    if eKind = .SnapshotTag then Except.ok (ReplaySnapshotEvent s)
    else if eKind = .EventLoopYieldPointTag then
      Except.ok (ReplayEventLoopYieldPointEvent s)
    else ReplaySingleActionEventEntry s
  else Except.error CreateAbortEndOfLog

/-! ## Mode stack and computed mode

The `TTDMode` enum is declared in a support header outside the sampled
sources.  Modelled from the spec: a bitmask type with one base mode
(Record/Replay/Debugger) in stack slot 0 and orthogonal modifier bits above;
`AnyExcludedMode` is the union of the two excluded-execution bits.  The
numeric values below mirror that layout; the development relies only on the
bits being distinct. -/

def TTDMode.Invalid : Nat := 0
def TTDMode.RecordMode : Nat := 0x1
def TTDMode.ReplayMode : Nat := 0x2
def TTDMode.DebuggerMode : Nat := 0x4
def TTDMode.CurrentlyEnabled : Nat := 0x10
def TTDMode.ExcludedExecutionTTAction : Nat := 0x100
def TTDMode.ExcludedExecutionDebuggerAction : Nat := 0x200
def TTDMode.AnyExcludedMode : Nat :=
  TTDMode.ExcludedExecutionTTAction ||| TTDMode.ExcludedExecutionDebuggerAction
def TTDMode.DebuggerSuppressGetter : Nat := 0x1000
def TTDMode.DebuggerSuppressBreakpoints : Nat := 0x2000
def TTDMode.DebuggerLogBreakpoints : Nat := 0x4000

/-- The base modes accepted at stack slot 0 (`EventLog::SetGlobalMode` assert,
TTEventLog.cpp 690; `UpdateComputedMode` case list, 389-393). -/
def isBaseMode (m : Nat) : Bool :=
  m = TTDMode.RecordMode || m = TTDMode.ReplayMode || m = TTDMode.DebuggerMode

/-- The modifier modes accepted by `PushMode`/`PopMode` (TTEventLog.cpp
709-719; `UpdateComputedMode` case list, 395-401).  `CurrentlyEnabled` is a
modifier here, matching the push/pop assert. -/
def isModifierMode (m : Nat) : Bool :=
  m = TTDMode.CurrentlyEnabled || m = TTDMode.ExcludedExecutionTTAction ||
    m = TTDMode.ExcludedExecutionDebuggerAction || m = TTDMode.DebuggerSuppressGetter ||
    m = TTDMode.DebuggerSuppressBreakpoints || m = TTDMode.DebuggerLogBreakpoints

/-- The loop of `EventLog::UpdateComputedMode` for stack slots above 0: each
must be a modifier mode (else the `TTDAssert` fires) and is ORed into the
accumulator. -/
def computeModeAux : List Nat → Nat → Option Nat
  | [], cm => some cm
  | m :: rest, cm =>
    if isModifierMode m then computeModeAux rest (cm ||| m) else none

/-- `EventLog::UpdateComputedMode` (TTEventLog.cpp 379-418): the stack must be
non-empty, slot 0 must hold a base mode (assigned into the accumulator), and
every higher slot must hold a modifier mode (ORed in); `none` models a fired
`TTDAssert`.  The per-context flag propagation is `SetModeFlagsOnContext`
below. -/
def UpdateComputedMode (modeStack : List Nat) : Option Nat :=
  match modeStack with
  | [] => none
  | m0 :: rest => if isBaseMode m0 then computeModeAux rest m0 else none

/-- The OR of a whole mode stack (what the computed mode should equal). -/
def modeStackOr (modeStack : List Nat) : Nat :=
  modeStack.foldl (· ||| ·) 0

/-- A well-formed mode stack: slot 0 a base mode, higher slots modifiers. -/
def WFModeStack (modeStack : List Nat) : Prop :=
  ∃ m0 rest, modeStack = m0 :: rest ∧ isBaseMode m0 = true ∧
    ∀ m ∈ rest, isModifierMode m = true

/-- The mode state of an `EventLog`: `m_modeStack` (bottom of the stack first,
so `GetAt(0)` is the list head and push/pop act on the tail) and the cached
`m_currentMode`. -/
structure ModeState where
  modeStack : List Nat
  currentMode : Nat
  deriving DecidableEq

/-- `EventLog::PushMode` (TTEventLog.cpp 707-714): assert the pushed value is
a valid modifier, push it, recompute the mode. -/
def PushMode (m : Nat) (s : ModeState) : Option ModeState :=
  if isModifierMode m then
    match UpdateComputedMode (s.modeStack ++ [m]) with
    | some cm => some { modeStack := s.modeStack ++ [m], currentMode := cm }
    | none => none
  else none

/-- `EventLog::PopMode` (TTEventLog.cpp 716-724): assert the popped value is a
valid modifier *and* equals the stack top, pop it, recompute the mode. -/
def PopMode (m : Nat) (s : ModeState) : Option ModeState :=
  if isModifierMode m && (s.modeStack.getLast? == some m) then
    match UpdateComputedMode s.modeStack.dropLast with
    | some cm => some { modeStack := s.modeStack.dropLast, currentMode := cm }
    | none => none
  else none

/-- `EventLog::SetGlobalMode` (TTEventLog.cpp 688-694): assert the value is a
base mode, overwrite stack slot 0, recompute the mode. -/
def SetGlobalMode (m : Nat) (s : ModeState) : Option ModeState :=
  if isBaseMode m then
    match UpdateComputedMode (s.modeStack.set 0 m) with
    | some cm => some { modeStack := s.modeStack.set 0 m, currentMode := cm }
    | none => none
  else none

/-- The fast-path booleans cached on a `Js::ScriptContext`. -/
structure ScriptContextTTDFlags where
  TTDRecordModeEnabled : Bool
  TTDReplayModeEnabled : Bool
  TTDRecordOrReplayModeEnabled : Bool
  TTDShouldPerformRecordAction : Bool
  TTDShouldPerformReplayAction : Bool
  TTDShouldPerformRecordOrReplayAction : Bool
  TTDShouldPerformDebuggerAction : Bool
  TTDShouldSuppressGetterInvocationForDebuggerEvaluation : Bool
  deriving DecidableEq

/-- `EventLog::SetModeFlagsOnContext` (TTEventLog.cpp 726-740), transcribed
bit test by bit test from the computed mode `cm`. -/
def SetModeFlagsOnContext (cm : Nat) : ScriptContextTTDFlags :=
  let recEnabled :=
    (cm &&& (TTDMode.RecordMode ||| TTDMode.AnyExcludedMode)) == TTDMode.RecordMode
  let repEnabled :=
    (cm &&& (TTDMode.ReplayMode ||| TTDMode.AnyExcludedMode)) == TTDMode.ReplayMode
  let shouldRec :=
    (cm &&& (TTDMode.RecordMode ||| TTDMode.CurrentlyEnabled ||| TTDMode.AnyExcludedMode)) ==
      (TTDMode.RecordMode ||| TTDMode.CurrentlyEnabled)
  let shouldRep :=
    (cm &&& (TTDMode.ReplayMode ||| TTDMode.CurrentlyEnabled ||| TTDMode.AnyExcludedMode)) ==
      (TTDMode.ReplayMode ||| TTDMode.CurrentlyEnabled)
  let shouldDbg :=
    (cm &&& (TTDMode.DebuggerMode ||| TTDMode.CurrentlyEnabled ||| TTDMode.AnyExcludedMode)) ==
      (TTDMode.DebuggerMode ||| TTDMode.CurrentlyEnabled)
  { TTDRecordModeEnabled := recEnabled
    TTDReplayModeEnabled := repEnabled
    TTDRecordOrReplayModeEnabled := recEnabled || repEnabled
    TTDShouldPerformRecordAction := shouldRec
    TTDShouldPerformReplayAction := shouldRep
    TTDShouldPerformRecordOrReplayAction := shouldRec || shouldRep
    TTDShouldPerformDebuggerAction := shouldDbg
    TTDShouldSuppressGetterInvocationForDebuggerEvaluation :=
      (cm &&& TTDMode.DebuggerSuppressGetter) == TTDMode.DebuggerSuppressGetter }

/-- `EventLog::ShouldSuppressBreakpointsForTimeTravelMove` (TTEventLog.cpp
759-762). -/
def ShouldSuppressBreakpointsForTimeTravelMove (cm : Nat) : Bool :=
  (cm &&& TTDMode.DebuggerSuppressBreakpoints) == TTDMode.DebuggerSuppressBreakpoints

/-- `EventLog::ShouldRecordBreakpointsDuringTimeTravelScan` (TTEventLog.cpp
764-767). -/
def ShouldRecordBreakpointsDuringTimeTravelScan (cm : Nat) : Bool :=
  (cm &&& TTDMode.DebuggerLogBreakpoints) == TTDMode.DebuggerLogBreakpoints

/-- The mode-stack state during `EventLog::DoSnapshotExtract` (TTEventLog.cpp
1804-1823): the body runs with `ExcludedExecutionTTAction` pushed (the
snapshot extraction itself is heap work outside the log model); the pop at the
end restores the previous stack. -/
def DoSnapshotExtractExcludedWindow (s : ModeState) : Option ModeState :=
  PushMode TTDMode.ExcludedExecutionTTAction s

/-! ## The shadow call stack -/

/-- `TTD::SingleCallCounter` (declared in a header outside the sampled
sources).  Modelled from the spec: function identity plus the monotonically
advancing counters maintained by the push/pop/statement hooks; field names
follow the uses in TTEventLog.cpp (`PushCallEvent`, 1149-1227).  `Function`
is the function-body identity, with `0` playing the role of the null
pointer. -/
structure SingleCallCounter where
  Function : Nat
  EventTime : Int := 0
  FunctionTime : Int := 0
  LoopTime : Int := 0
  CurrentStatementIndex : Int := -1
  CurrentStatementLoopTime : Int := 0
  LastStatementIndex : Int := -1
  LastStatementLoopTime : Int := 0
  CurrentStatementBytecodeMin : Nat := 0
  CurrentStatementBytecodeMax : Nat := 0
  deriving DecidableEq

instance : Inhabited SingleCallCounter := ⟨{ Function := 0 }⟩

/-- `TTD::TTLastReturnLocationInfo` (TTEventLog.cpp 48-111): the last
return/exception frame.  `lastFrame = none` models the
`m_lastFrame.Function == nullptr` "not defined" state. -/
structure TTLastReturnLocationInfo where
  isExceptionFrame : Bool
  lastFrame : Option SingleCallCounter
  deriving DecidableEq

def TTLastReturnLocationInfo.IsDefined (i : TTLastReturnLocationInfo) : Bool :=
  i.lastFrame.isSome

def TTLastReturnLocationInfo.IsReturnLocation (i : TTLastReturnLocationInfo) : Bool :=
  i.IsDefined && !i.isExceptionFrame

def TTLastReturnLocationInfo.IsExceptionLocation (i : TTLastReturnLocationInfo) : Bool :=
  i.IsDefined && i.isExceptionFrame

def TTLastReturnLocationInfo.SetReturnLocation (cframe : SingleCallCounter) :
    TTLastReturnLocationInfo :=
  { isExceptionFrame := false, lastFrame := some cframe }

def TTLastReturnLocationInfo.SetExceptionLocation (cframe : SingleCallCounter) :
    TTLastReturnLocationInfo :=
  { isExceptionFrame := true, lastFrame := some cframe }

/-- The call-stack state of an `EventLog`: `m_callStack` (top of stack last),
`m_lastReturnLocation` and `m_runningFunctionTimeCtr`. -/
structure CallStackState where
  callStack : List SingleCallCounter
  lastReturnLocation : TTLastReturnLocationInfo
  runningFunctionTimeCtr : Int
  deriving DecidableEq

/-- `EventLog::PopCallEvent` (TTEventLog.cpp 1229-1239): record the popped
frame as the last *return* location unconditionally, advance the running
function-time counter, remove the top frame. -/
def PopCallEvent (s : CallStackState) : CallStackState :=
  { callStack := s.callStack.dropLast,
    lastReturnLocation :=
      TTLastReturnLocationInfo.SetReturnLocation (s.callStack.getLast?.getD default),
    runningFunctionTimeCtr := s.runningFunctionTimeCtr + 1 }

/-- `EventLog::PopCallEventException` (TTEventLog.cpp 1241-1257): record the
popped frame as the last *exception* location only when no exception location
is already recorded (first raiser wins), advance the running function-time
counter, remove the top frame. -/
def PopCallEventException (s : CallStackState) : CallStackState :=
  { callStack := s.callStack.dropLast,
    lastReturnLocation :=
      if !s.lastReturnLocation.IsExceptionLocation then
        TTLastReturnLocationInfo.SetExceptionLocation (s.callStack.getLast?.getD default)
      else s.lastReturnLocation,
    runningFunctionTimeCtr := s.runningFunctionTimeCtr + 1 }

/-! ## Breakpoint gating (`EventLog::ProcessBPInfoPreBreak`) -/

/-- `TTD::TTDebuggerSourceLocation` (declared outside the sampled sources).
Modelled from the spec: a debugger location is identified by the top-level
event time, the function-invocation ordinal, the loop ordinal, and the source
line/column. -/
structure SourceLoc where
  RootEventTime : Int
  FunctionTime : Int
  LoopTime : Int
  Line : Int
  Column : Int
  deriving DecidableEq

/-- Modelled from the spec: `TTDebuggerSourceLocation::IsBefore` orders
locations by root event time, then function-invocation ordinal, then loop
ordinal (execution order within a top-level callback). -/
def SourceLoc.IsBefore (a b : SourceLoc) : Bool :=
  if a.RootEventTime = b.RootEventTime then
    if a.FunctionTime = b.FunctionTime then decide (a.LoopTime < b.LoopTime)
    else decide (a.FunctionTime < b.FunctionTime)
  else decide (a.RootEventTime < b.RootEventTime)

/-- The state consulted by `ProcessBPInfoPreBreak` (TTEventLog.cpp
1340-1378): the computed mode (whose per-context flag
`TTDShouldPerformDebuggerAction` the function reads through
`ShouldPerformDebuggerAction()`), the active-BP target (`m_activeBPId`,
`-1` = none, and `m_activeTTDBP` with `-1` wildcards for the time fields),
the pending target and continue candidate (`m_pendingTTDBP`,
`m_continueBreakPoint`), the top call counter's statement position
(`topFrame*`, resolved through the function body's statement table, which is
external), and the `TTDebuggerSourceLocation` built from
`m_topLevelCallbackEventTime` and `m_callStack.Last()` (`currentLoc`). -/
structure BPState where
  currentMode : Nat
  activeBPId : Int
  activeLine : Int
  activeColumn : Int
  activeFunctionTime : Int
  activeLoopTime : Int
  pendingTTDBP : Option SourceLoc
  continueBreakPoint : Option SourceLoc
  topFrameSrcLine : Int
  topFrameSrcColumn : Int
  topFrameFunctionTime : Int
  topFrameCurrentStatementLoopTime : Int
  currentLoc : SourceLoc
  deriving DecidableEq

/-- `EventLog::HasActiveBP` (TTEventLog.cpp 1314-1317). -/
def HasActiveBP (s : BPState) : Bool := s.activeBPId != -1

/-- `EventLog::AddCurrentLocationDuringScan` (TTEventLog.cpp 1413-1420):
record the current location as the continue candidate when a pending target
exists and the current location is before it. -/
def AddCurrentLocationDuringScan (s : BPState) : BPState :=
  match s.pendingTTDBP with
  | some pending =>
    if s.currentLoc.IsBefore pending then { s with continueBreakPoint := some s.currentLoc }
    else s
  | none => s

/-- `EventLog::ProcessBPInfoPreBreak` (TTEventLog.cpp 1340-1378): returns
whether the breakpoint should fire, and the possibly updated scan state. -/
def ProcessBPInfoPreBreak (s : BPState) : Bool × BPState :=
  if !(SetModeFlagsOnContext s.currentMode).TTDShouldPerformDebuggerAction then
    (true, s)
  else if ShouldSuppressBreakpointsForTimeTravelMove s.currentMode then
    (false,
      if ShouldRecordBreakpointsDuringTimeTravelScan s.currentMode then
        AddCurrentLocationDuringScan s
      else s)
  else if !HasActiveBP s then (true, s)
  else
    let locationOk :=
      (s.topFrameSrcLine == s.activeLine) && (s.topFrameSrcColumn == s.activeColumn)
    let ftimeOk :=
      (s.activeFunctionTime == -1) || (s.activeFunctionTime == s.topFrameFunctionTime)
    let ltimeOk :=
      (s.activeLoopTime == -1) || (s.activeLoopTime == s.topFrameCurrentStatementLoopTime)
    (locationOk && ftimeOk && ltimeOk, s)

/-! ## Serialization (`EventLog::EmitLog` / `EventLog::ParseLogInto`)

The token writer/reader (`TTD_LOG_WRITER`/`TTD_LOG_READER`, TTSerialize) and
the per-kind emit/parse functions live outside the sampled sources; they are
modelled from the spec as a self-describing token stream whose event payloads
round-trip bit-for-bit.  `EmitLog`/`ParseLogInto` below transcribe the section
structure of TTEventLog.cpp 2985-3319 for the x64, diagnostics-off
configuration (the configuration emits `diagEnabled = false` and parses it
back, so the diagnostics-only nesting tokens are absent on both sides). -/

inductive LogToken where
  | recordStart
  | recordEnd
  | seqStart
  | seqEnd
  | stringTok (key : Nat) (value : String)
  | boolTok (key : Nat) (value : Bool)
  | uint64Tok (key : Nat) (value : Nat)
  | lengthTok (value : Nat)
  | eventTok (evt : EventLogEntry)
  | propertyTok (record : Nat)
  | scriptTok (info : Nat)
  deriving DecidableEq

def keyArch : Nat := 0
def keyPlatform : Nat := 1
def keyDiagEnabled : Nat := 2
def keyUsedMemory : Nat := 3
def keyReservedMemory : Nat := 4

/-- The log-owned data serialized by `EmitLog`: the event list, the property
record pin set (in iteration order, each record an opaque bit pattern), the
three top-level script tables, and the slab-allocator memory statistics. -/
structure EventLogSerializeState where
  eventList : TTEventList
  properties : List Nat
  loadedTopLevelScripts : List Nat
  newFunctionTopLevelScripts : List Nat
  evalTopLevelScripts : List Nat
  usedMemory : Nat
  reservedMemory : Nat
  deriving DecidableEq

/-- Modelled from the spec: the registry emit function of an event's kind
writes the event's payload bit-for-bit as one self-contained token
(`NSLogEvents::EventLogEntry_Emit` dispatching through the vtable row). -/
def EventLogEntry_Emit (e : EventLogEntry) : List LogToken := [.eventTok e]

/-- Modelled from the spec: the registry parse function of an event's kind is
the exact dual of its emit function, reconstructing the payload
bit-for-bit. -/
def EventLogEntry_Parse : List LogToken → Option (EventLogEntry × List LogToken)
  | .eventTok e :: rest => some (e, rest)
  | _ => none

/-- `EventLog::EmitLog` (TTEventLog.cpp 2985-3188): record start; header
(arch, platform, diagnostics flag, used/reserved memory); event count and the
events in time order via their registry emit functions; the property records;
the three top-level script tables (script-loaded, `new Function`, `eval`),
each length-prefixed; record end. -/
def EmitLog (log : EventLogSerializeState) : List LogToken :=
  [LogToken.recordStart,
   LogToken.stringTok keyArch "x64",
   LogToken.stringTok keyPlatform "Linux",
   LogToken.boolTok keyDiagEnabled false,
   LogToken.uint64Tok keyUsedMemory log.usedMemory,
   LogToken.uint64Tok keyReservedMemory log.reservedMemory,
   LogToken.lengthTok (TTEventListCount log.eventList),
   LogToken.seqStart] ++
  ((liveEntries log.eventList).map EventLogEntry_Emit).flatten ++
  [LogToken.seqEnd,
   LogToken.lengthTok log.properties.length,
   LogToken.seqStart] ++
  log.properties.map LogToken.propertyTok ++
  [LogToken.seqEnd,
   LogToken.lengthTok log.loadedTopLevelScripts.length,
   LogToken.seqStart] ++
  log.loadedTopLevelScripts.map LogToken.scriptTok ++
  [LogToken.seqEnd,
   LogToken.lengthTok log.newFunctionTopLevelScripts.length,
   LogToken.seqStart] ++
  log.newFunctionTopLevelScripts.map LogToken.scriptTok ++
  [LogToken.seqEnd,
   LogToken.lengthTok log.evalTopLevelScripts.length,
   LogToken.seqStart] ++
  log.evalTopLevelScripts.map LogToken.scriptTok ++
  [LogToken.seqEnd, LogToken.recordEnd]

def readToken (t : LogToken) : List LogToken → Option (List LogToken)
  | t' :: rest => if t' = t then some rest else none
  | [] => none

def readString (key : Nat) : List LogToken → Option (String × List LogToken)
  | .stringTok k v :: rest => if k = key then some (v, rest) else none
  | _ => none

def readBool (key : Nat) : List LogToken → Option (Bool × List LogToken)
  | .boolTok k v :: rest => if k = key then some (v, rest) else none
  | _ => none

def readUInt64 (key : Nat) : List LogToken → Option (Nat × List LogToken)
  | .uint64Tok k v :: rest => if k = key then some (v, rest) else none
  | _ => none

def readLength : List LogToken → Option (Nat × List LogToken)
  | .lengthTok v :: rest => some (v, rest)
  | _ => none

/-- The event loop of `ParseLogInto` (TTEventLog.cpp 3239-3276): `ecount`
iterations of `GetNextAvailableEntry` + `EventLogEntry_Parse` building the
in-memory event list. -/
def parseEventsLoop : Nat → TTEventList → List LogToken →
    Option (TTEventList × List LogToken)
  | 0, acc, ts => some (acc, ts)
  | n + 1, acc, ts =>
    match EventLogEntry_Parse ts with
    | some (e, ts') => parseEventsLoop n (GetNextAvailableEntry acc e) ts'
    | none => none

/-- The property-record loop of `ParseLogInto` (TTEventLog.cpp 3280-3287). -/
def readPropertyRecords : Nat → List LogToken → Option (List Nat × List LogToken)
  | 0, ts => some ([], ts)
  | n + 1, .propertyTok p :: ts =>
    match readPropertyRecords n ts with
    | some (ps, ts') => some (p :: ps, ts')
    | none => none
  | _ + 1, _ => none

/-- One top-level script table loop of `ParseLogInto` (TTEventLog.cpp
3290-3315). -/
def readScriptInfos : Nat → List LogToken → Option (List Nat × List LogToken)
  | 0, ts => some ([], ts)
  | n + 1, .scriptTok v :: ts =>
    match readScriptInfos n ts with
    | some (vs, ts') => some (v :: vs, ts')
    | none => none
  | _ + 1, _ => none

/-- The data reconstructed by `ParseLogInto`: the event list and the parsed
property-record and top-level script tables. -/
structure ParsedLog where
  eventList : TTEventList
  propertyRecordList : List Nat
  loadedTopLevelScripts : List Nat
  newFunctionTopLevelScripts : List Nat
  evalTopLevelScripts : List Nat
  deriving DecidableEq

/-- `EventLog::ParseLogInto` (TTEventLog.cpp 3190-3319): the exact dual of
`EmitLog`, reading the sections in the same order.  The architecture check
(`TTDAssert(wcscmp(...) == 0)`) and the diagnostics-flag check are fatal on
mismatch (`none`); the platform string and the memory statistics are read and
ignored. -/
def ParseLogInto (ts0 : List LogToken) : Option ParsedLog :=
  match readToken .recordStart ts0 with
  | none => none
  | some ts1 =>
  match readString keyArch ts1 with
  | none => none
  | some (arch, ts2) =>
  if arch ≠ "x64" then none else
  match readString keyPlatform ts2 with
  | none => none
  | some (_, ts3) =>
  match readBool keyDiagEnabled ts3 with
  | none => none
  | some (diag, ts4) =>
  if diag then none else
  match readUInt64 keyUsedMemory ts4 with
  | none => none
  | some (_, ts5) =>
  match readUInt64 keyReservedMemory ts5 with
  | none => none
  | some (_, ts6) =>
  match readLength ts6 with
  | none => none
  | some (ecount, ts7) =>
  match readToken .seqStart ts7 with
  | none => none
  | some ts8 =>
  match parseEventsLoop ecount [] ts8 with
  | none => none
  | some (events, ts9) =>
  match readToken .seqEnd ts9 with
  | none => none
  | some ts10 =>
  match readLength ts10 with
  | none => none
  | some (pcount, ts11) =>
  match readToken .seqStart ts11 with
  | none => none
  | some ts12 =>
  match readPropertyRecords pcount ts12 with
  | none => none
  | some (props, ts13) =>
  match readToken .seqEnd ts13 with
  | none => none
  | some ts14 =>
  match readLength ts14 with
  | none => none
  | some (lcount, ts15) =>
  match readToken .seqStart ts15 with
  | none => none
  | some ts16 =>
  match readScriptInfos lcount ts16 with
  | none => none
  | some (loaded, ts17) =>
  match readToken .seqEnd ts17 with
  | none => none
  | some ts18 =>
  match readLength ts18 with
  | none => none
  | some (ncount, ts19) =>
  match readToken .seqStart ts19 with
  | none => none
  | some ts20 =>
  match readScriptInfos ncount ts20 with
  | none => none
  | some (newFns, ts21) =>
  match readToken .seqEnd ts21 with
  | none => none
  | some ts22 =>
  match readLength ts22 with
  | none => none
  | some (ecount2, ts23) =>
  match readToken .seqStart ts23 with
  | none => none
  | some ts24 =>
  match readScriptInfos ecount2 ts24 with
  | none => none
  | some (evals, ts25) =>
  match readToken .seqEnd ts25 with
  | none => none
  | some ts26 =>
  match readToken .recordEnd ts26 with
  | none => none
  | some _ =>
    some { eventList := events, propertyRecordList := props,
           loadedTopLevelScripts := loaded, newFunctionTopLevelScripts := newFns,
           evalTopLevelScripts := evals }

/-- The externally observable outcome of replaying one record: a function of
the record's bits alone (the replay driver dispatches on the kind and feeds
the payload to the execute function, asserting the completion status matches
the recorded `ResultStatus`). -/
def replayObservableOutcome (e : EventLogEntry) : EventKind × Int × Int × Nat :=
  (e.EventKind, e.EventTimeStamp, e.ResultStatus, e.Payload)

/-- The result sequence produced by replaying a log: the observable outcomes
of its live records in time order. -/
def replayResultSequence (l : TTEventList) : List (EventKind × Int × Int × Nat) :=
  (liveEntries l).map replayObservableOutcome

/-- The stamp invariant a single recording `EventLog` instance maintains: a
well-formed list whose live records carry consecutive stamps, every stamp
below the counter, the newest stamp (when one exists) being the counter's
predecessor. -/
def recordStampInvariant (s : EventLogRecordState) : Prop :=
  WFList s.eventList ∧ consecutiveTimestamps (liveEntries s.eventList) ∧
    (∀ t ∈ eventTimes s.eventList, t < s.eventTimeCtr) ∧
    (eventTimes s.eventList).getLast?.getD (s.eventTimeCtr - 1) = s.eventTimeCtr - 1

instance (s : EventLogRecordState) : Decidable (recordStampInvariant s) :=
  inferInstanceAs (Decidable (WFList s.eventList ∧
    consecutiveTimestamps (liveEntries s.eventList) ∧
    (∀ t ∈ eventTimes s.eventList, t < s.eventTimeCtr) ∧
    (eventTimes s.eventList).getLast?.getD (s.eventTimeCtr - 1) = s.eventTimeCtr - 1))

/-! ### Specification lemmas for the event list -/

theorem liveEntries_nil : liveEntries [] = [] := rfl

theorem liveEntries_cons (b : TTEventListLink) (l : TTEventList) :
    liveEntries (b :: l) = blockLive b ++ liveEntries l := by
  simp [liveEntries]

theorem liveEntries_concat (l : TTEventList) (b : TTEventListLink) :
    liveEntries (l ++ [b]) = liveEntries l ++ blockLive b := by
  simp [liveEntries]

theorem blockLive_length (b : TTEventListLink)
    (hc : b.CurrPos ≤ b.BlockData.length) :
    (blockLive b).length = b.CurrPos - b.StartPos := by
  simp only [blockLive, List.length_drop, List.length_take]
  omega

theorem TTEventListCount_eq (l : TTEventList) (h : WFList l) :
    TTEventListCount l = (liveEntries l).length := by
  induction l with
  | nil => rfl
  | cons b bs ih =>
    have hb : WFLink b := h b (by simp)
    have hrest : WFList bs := fun x hx => h x (by simp [hx])
    simp only [TTEventListCount, List.foldr_cons, liveEntries_cons, List.length_append]
    rw [blockLive_length b (by rw [hb.1]; exact hb.2.2), ← ih hrest]
    rfl

theorem updateLastLink_concat (f : TTEventListLink → TTEventListLink)
    (l : TTEventList) (b : TTEventListLink) :
    updateLastLink f (l ++ [b]) = l ++ [f b] := by
  simp [updateLastLink, List.getLast?_concat]

/-- Writing the caller's record into the slot returned by
`GetNextAvailableEntry` extends the block's live range by that record. -/
theorem blockLive_write (data : List EventLogEntry) (s c : Nat) (e : EventLogEntry)
    (hsc : s ≤ c) (hc : c < data.length) :
    ((data.set c e).take (c + 1)).drop s = (data.take c).drop s ++ [e] := by
  have hl : (data.take c).length = c := by rw [List.length_take]; omega
  rw [List.set_eq_take_cons_drop e hc, List.take_append_eq_append_take,
    List.take_of_length_le (by omega), hl, show c + 1 - c = 1 from by omega,
    List.drop_append_of_le_length (by omega)]
  simp

theorem blockLive_writeSlot (b : TTEventListLink) (e : EventLogEntry)
    (hsc : b.StartPos ≤ b.CurrPos) (hc : b.CurrPos < b.BlockData.length) :
    blockLive (writeSlot e b) = blockLive b ++ [e] := by
  unfold blockLive writeSlot
  exact blockLive_write b.BlockData b.StartPos b.CurrPos e hsc hc

theorem WFLink_writeSlot (b : TTEventListLink) (e : EventLogEntry)
    (h : b.BlockData.length = TTD_EVENTLOG_LIST_BLOCK_SIZE)
    (hsc : b.StartPos ≤ b.CurrPos) (hc : b.CurrPos < TTD_EVENTLOG_LIST_BLOCK_SIZE) :
    WFLink (writeSlot e b) := by
  refine ⟨by simp [writeSlot, h], by simp [writeSlot]; omega, by simp [writeSlot]; omega⟩

theorem freshBlock_facts :
    freshBlock.BlockData.length = TTD_EVENTLOG_LIST_BLOCK_SIZE ∧
      freshBlock.StartPos = 0 ∧ freshBlock.CurrPos = 0 := by
  refine ⟨by simp [freshBlock], rfl, rfl⟩

theorem blockSize_pos : 0 < TTD_EVENTLOG_LIST_BLOCK_SIZE := by decide

theorem freshBlock_curr_lt : freshBlock.CurrPos < freshBlock.BlockData.length := by
  rw [freshBlock_facts.1]
  exact blockSize_pos

theorem blockLive_writeSlot_fresh (e : EventLogEntry) :
    blockLive (writeSlot e freshBlock) = [e] := by
  rw [blockLive_writeSlot freshBlock e (Nat.le_refl 0) freshBlock_curr_lt]
  simp [blockLive, freshBlock]

/-- Branch normal form of `GetNextAvailableEntry`. -/
theorem GetNextAvailableEntry_eq (l : TTEventList) (e : EventLogEntry) :
    GetNextAvailableEntry l e =
      match l.getLast? with
      | none => updateLastLink (writeSlot e) (AddArrayLink l)
      | some b =>
          if b.CurrPos = TTD_EVENTLOG_LIST_BLOCK_SIZE then
            updateLastLink (writeSlot e) (AddArrayLink l)
          else updateLastLink (writeSlot e) l := by
  unfold GetNextAvailableEntry
  cases l.getLast? with
  | none => simp
  | some b =>
    by_cases hfull : b.CurrPos = TTD_EVENTLOG_LIST_BLOCK_SIZE <;> simp [hfull]

/-- `GetNextAvailableEntry` appends exactly the given record to the live
sequence. -/
theorem liveEntries_GetNextAvailableEntry (l : TTEventList) (e : EventLogEntry)
    (h : WFList l) :
    liveEntries (GetNextAvailableEntry l e) = liveEntries l ++ [e] := by
  rw [GetNextAvailableEntry_eq]
  cases hl : l.getLast? with
  | none =>
    have : l = [] := List.getLast?_eq_none_iff.mp hl
    subst this
    show liveEntries (updateLastLink (writeSlot e) (AddArrayLink [])) = _
    unfold AddArrayLink
    rw [updateLastLink_concat, liveEntries_concat, blockLive_writeSlot_fresh]
  | some b =>
    obtain ⟨l₀, rfl⟩ := List.getLast?_eq_some_iff.mp hl
    have hb : WFLink b := h b (by simp)
    have h1 := hb.1
    have h2 := hb.2.1
    have h3 := hb.2.2
    by_cases hfull : b.CurrPos = TTD_EVENTLOG_LIST_BLOCK_SIZE
    · simp only [List.getLast?_concat]
      rw [if_pos hfull]
      unfold AddArrayLink
      rw [updateLastLink_concat, liveEntries_concat, blockLive_writeSlot_fresh]
    · simp only [List.getLast?_concat]
      rw [if_neg hfull, updateLastLink_concat, liveEntries_concat, liveEntries_concat,
        blockLive_writeSlot b e (Nat.le_of_lt h2) (by omega)]
      simp

/-- `GetNextAvailableEntry` preserves well-formedness. -/
theorem WFList_GetNextAvailableEntry (l : TTEventList) (e : EventLogEntry)
    (h : WFList l) :
    WFList (GetNextAvailableEntry l e) := by
  rw [GetNextAvailableEntry_eq]
  cases hl : l.getLast? with
  | none =>
    have : l = [] := List.getLast?_eq_none_iff.mp hl
    subst this
    show WFList (updateLastLink (writeSlot e) (AddArrayLink []))
    unfold AddArrayLink
    rw [updateLastLink_concat]
    intro x hx
    simp only [List.nil_append, List.mem_singleton] at hx
    subst hx
    exact WFLink_writeSlot freshBlock e freshBlock_facts.1 (Nat.le_refl 0)
      blockSize_pos
  | some b =>
    obtain ⟨l₀, rfl⟩ := List.getLast?_eq_some_iff.mp hl
    have hb : WFLink b := h b (by simp)
    have h1 := hb.1
    have h2 := hb.2.1
    have h3 := hb.2.2
    by_cases hfull : b.CurrPos = TTD_EVENTLOG_LIST_BLOCK_SIZE
    · simp only [List.getLast?_concat]
      rw [if_pos hfull]
      unfold AddArrayLink
      rw [updateLastLink_concat]
      intro x hx
      rcases List.mem_append.mp hx with hx | hx
      · exact h x hx
      · simp only [List.mem_singleton] at hx
        subst hx
        exact WFLink_writeSlot freshBlock e freshBlock_facts.1 (Nat.le_refl 0)
          blockSize_pos
    · simp only [List.getLast?_concat]
      rw [if_neg hfull, updateLastLink_concat]
      intro x hx
      rcases List.mem_append.mp hx with hx | hx
      · exact h x (by simp [hx])
      · simp only [List.mem_singleton] at hx
        subst hx
        exact WFLink_writeSlot b e h1 (Nat.le_of_lt h2) (by omega)

/-- `DeleteFirstEntry` unloads exactly the oldest live record (when its kind
has an `UnloadFP`), leaves the remaining live records, and preserves
well-formedness. -/
theorem DeleteFirstEntry_spec (l : TTEventList) (h : WFList l)
    (e : EventLogEntry) (rest : List EventLogEntry)
    (hl : liveEntries l = e :: rest) :
    (DeleteFirstEntry l).1 = (if vtableHasUnloadFP e.EventKind then [e] else []) ∧
      liveEntries (DeleteFirstEntry l).2 = rest ∧ WFList (DeleteFirstEntry l).2 := by
  cases l with
  | nil => simp [liveEntries] at hl
  | cons b bs =>
    have hb : WFLink b := h b (by simp)
    have hbs : WFList bs := fun x hx => h x (by simp [hx])
    have hclen : b.CurrPos ≤ b.BlockData.length := by rw [hb.1]; exact hb.2.2
    have hsc : b.StartPos < b.CurrPos := hb.2.1
    have hbll : (blockLive b).length = b.CurrPos - b.StartPos := blockLive_length b hclen
    have hbl : blockLive b ≠ [] := by
      intro hcon
      rw [hcon] at hbll
      simp at hbll
      omega
    obtain ⟨x, bl', hble⟩ := List.exists_cons_of_ne_nil hbl
    have hdecomp : x :: (bl' ++ liveEntries bs) = e :: rest := by
      rw [← hl, liveEntries_cons, hble]
      simp
    have hx : x = e := (List.cons.injEq _ _ _ _ ▸ hdecomp).1
    have hrest : bl' ++ liveEntries bs = rest := (List.cons.injEq _ _ _ _ ▸ hdecomp).2
    have hgetD : b.BlockData.getD b.StartPos default = e := by
      have h0 : (blockLive b).head? = some x := by rw [hble]; rfl
      unfold blockLive at h0
      rw [List.head?_eq_getElem?, List.getElem?_drop,
        List.getElem?_take_of_lt (by omega)] at h0
      rw [List.getD_eq_getElem?_getD]
      rw [show b.StartPos + 0 = b.StartPos from by omega] at h0
      rw [h0]
      exact hx
    have htail : blockLive { b with StartPos := b.StartPos + 1 } = bl' := by
      have ht : (blockLive b).tail = bl' := by rw [hble]; rfl
      unfold blockLive at ht ⊢
      rw [← List.tail_drop]
      exact ht
    by_cases hdone : b.StartPos + 1 = b.CurrPos
    · have hbl1 : bl' = [] := by
        rw [hble] at hbll
        simp only [List.length_cons] at hbll
        have : bl'.length = 0 := by omega
        exact List.eq_nil_of_length_eq_zero this
      have hres : DeleteFirstEntry (b :: bs) =
          ((if vtableHasUnloadFP e.EventKind then [e] else []), bs) := by
        unfold DeleteFirstEntry
        simp only [hgetD, if_pos hdone]
      rw [hres]
      refine ⟨rfl, ?_, hbs⟩
      rw [← hrest, hbl1]
      simp
    · have hres : DeleteFirstEntry (b :: bs) =
          ((if vtableHasUnloadFP e.EventKind then [e] else []),
            { b with StartPos := b.StartPos + 1 } :: bs) := by
        unfold DeleteFirstEntry
        simp only [hgetD, if_neg hdone]
      rw [hres]
      refine ⟨rfl, ?_, ?_⟩
      · rw [liveEntries_cons, htail, hrest]
      · intro y hy
        rcases List.mem_cons.mp hy with hy | hy
        · subst hy
          exact ⟨hb.1, show b.StartPos + 1 < b.CurrPos from by omega, hb.2.2⟩
        · exact hbs y hy

/-- `deleteFirstN` unloads exactly the `n` oldest live records (those of them
whose kind has an `UnloadFP`), in order, leaving the rest. -/
theorem deleteFirstN_spec (n : Nat) (l : TTEventList) (h : WFList l)
    (hn : n ≤ (liveEntries l).length) :
    (deleteFirstN n l).1 =
        ((liveEntries l).take n).filter (fun e => vtableHasUnloadFP e.EventKind) ∧
      liveEntries (deleteFirstN n l).2 = (liveEntries l).drop n ∧
      WFList (deleteFirstN n l).2 := by
  induction n generalizing l with
  | zero => exact ⟨rfl, rfl, h⟩
  | succ n ih =>
    obtain ⟨e, rest, hl⟩ : ∃ e rest, liveEntries l = e :: rest := by
      cases hle : liveEntries l with
      | nil => rw [hle] at hn; simp at hn
      | cons a t => exact ⟨a, t, rfl⟩
    obtain ⟨h1, h2, h3⟩ := DeleteFirstEntry_spec l h e rest hl
    have hn' : n ≤ (liveEntries (DeleteFirstEntry l).2).length := by
      rw [h2]
      rw [hl] at hn
      simpa using Nat.le_of_succ_le_succ hn
    obtain ⟨g1, g2, g3⟩ := ih (DeleteFirstEntry l).2 h3 hn'
    refine ⟨?_, ?_, g3⟩
    · show (DeleteFirstEntry l).1 ++ (deleteFirstN n (DeleteFirstEntry l).2).1 = _
      rw [h1, g1, h2, hl]
      cases hu : vtableHasUnloadFP e.EventKind <;> simp [hu]
    · show liveEntries (deleteFirstN n (DeleteFirstEntry l).2).2 = _
      rw [g2, h2, hl]
      rfl

/-- `UnloadEventList` unloads exactly the live records whose kind has an
`UnloadFP`, in order. -/
theorem UnloadEventList_trace (l : TTEventList) :
    (UnloadEventList l).1 =
      (liveEntries l).filter (fun e => vtableHasUnloadFP e.EventKind) := by
  unfold UnloadEventList liveEntries
  rw [List.filter_flatten, List.map_map]
  rfl

/-! ### Specification lemmas for the prune scan -/

/-- When the backward scan stops, it has visited `j ≥ 1` entries whose newest
`j` contain exactly `maxEvents` snapshots, the `j`-th visited (oldest) one
being a snapshot. -/
theorem pruneScanTail_spec (rev : List EventLogEntry) :
    ∀ (m k r : Nat), 0 < m → pruneScanTail m rev k = some r →
      ∃ j, r = k + j ∧ 1 ≤ j ∧ j ≤ rev.length ∧
        (rev.take j).countP isSnapshotEvent = m ∧
        ∃ e, rev[j - 1]? = some e ∧ isSnapshotEvent e = true := by
  induction rev with
  | nil => intro m k r _ hscan; simp [pruneScanTail] at hscan
  | cons e older ih =>
    intro m k r hm hscan
    unfold pruneScanTail at hscan
    by_cases hz : (if isSnapshotEvent e then m - 1 else m) = 0
    · rw [if_pos hz] at hscan
      have hr : r = k + 1 := by
        have := Option.some.injEq (k + 1) r ▸ hscan
        omega
      have hsnap : isSnapshotEvent e = true := by
        by_contra hcon
        rw [if_neg hcon] at hz
        omega
      refine ⟨1, hr, Nat.le_refl 1, by simp, ?_, e, by simp, hsnap⟩
      have hm1 : m = 1 := by rw [if_pos hsnap] at hz; omega
      simp [List.countP_cons, hsnap, hm1]
    · rw [if_neg hz] at hscan
      have hm' : 0 < (if isSnapshotEvent e then m - 1 else m) := Nat.pos_of_ne_zero hz
      obtain ⟨j', hr, hj1, hjlen, hcount, e', hget, hsnap'⟩ := ih _ _ _ hm' hscan
      refine ⟨j' + 1, by omega, by omega, by simp; omega, ?_, e', ?_, hsnap'⟩
      · rw [List.take_succ_cons, List.countP_cons]
        by_cases hsnap : isSnapshotEvent e
        · rw [if_pos hsnap] at hcount
          simp only [hsnap, if_pos]
          omega
        · rw [if_neg hsnap] at hcount
          simp [hsnap, hcount]
      · rw [show j' + 1 - 1 = (j' - 1) + 1 from by omega, List.getElem?_cons_succ]
        exact hget

/-- The scan only stops if the list has at least `maxEvents` snapshots. -/
theorem pruneScanTail_countP (rev : List EventLogEntry) (m k r : Nat)
    (hm : 0 < m) (hscan : pruneScanTail m rev k = some r) :
    m ≤ rev.countP isSnapshotEvent := by
  obtain ⟨j, _, _, hjlen, hcount, _⟩ := pruneScanTail_spec rev m k r hm hscan
  calc m = (rev.take j).countP isSnapshotEvent := hcount.symm
    _ ≤ rev.countP isSnapshotEvent := (List.take_sublist j rev).countP_le _

/-- The scan does stop whenever the list has at least `maxEvents ≥ 1`
snapshots. -/
theorem pruneScanTail_isSome (rev : List EventLogEntry) :
    ∀ (m k : Nat), 0 < m → m ≤ rev.countP isSnapshotEvent →
      (pruneScanTail m rev k).isSome := by
  induction rev with
  | nil => intro m k hm hc; simp [List.countP_nil] at hc; omega
  | cons e older ih =>
    intro m k hm hc
    unfold pruneScanTail
    by_cases hz : (if isSnapshotEvent e then m - 1 else m) = 0
    · rw [if_pos hz]; rfl
    · rw [if_neg hz]
      refine ih _ (k + 1) (Nat.pos_of_ne_zero hz) ?_
      rw [List.countP_cons] at hc
      by_cases hsnap : isSnapshotEvent e
      · rw [if_pos hsnap] at hc
        rw [if_pos hsnap]
        omega
      · rw [if_neg hsnap] at hc
        rw [if_neg hsnap]
        omega

/-- The effect of `PruneLogLength` on the live sequence is dropping some
prefix (strictly FIFO from the oldest end), and well-formedness is
preserved. -/
theorem PruneLogLength_drop (n : Nat) (l : TTEventList) (h : WFList l) :
    ∃ k, k ≤ (liveEntries l).length ∧
      liveEntries (PruneLogLength n l) = (liveEntries l).drop k ∧
      WFList (PruneLogLength n l) := by
  unfold PruneLogLength
  by_cases hemp : (liveEntries l).isEmpty
  · rw [if_pos hemp]
    exact ⟨0, by omega, rfl, h⟩
  · rw [if_neg hemp]
    by_cases hn0 : n = 0
    · rw [if_pos hn0]
      refine ⟨(liveEntries l).length - 1, by omega, ?_, ?_⟩
      · exact (deleteFirstN_spec _ l h (by omega)).2.1
      · exact (deleteFirstN_spec _ l h (by omega)).2.2
    · rw [if_neg hn0]
      cases hscan : pruneScanTail n (liveEntries l).reverse 0 with
      | none => exact ⟨0, by omega, rfl, h⟩
      | some r =>
        refine ⟨(liveEntries l).length - r, by omega, ?_, ?_⟩
        · exact (deleteFirstN_spec _ l h (by omega)).2.1
        · exact (deleteFirstN_spec _ l h (by omega)).2.2

/-- When the list holds fewer than `n` snapshots, `PruneLogLength n` deletes
nothing at all. -/
theorem PruneLogLength_noop (n : Nat) (l : TTEventList)
    (hfew : (liveEntries l).countP isSnapshotEvent < n) :
    PruneLogLength n l = l := by
  unfold PruneLogLength
  by_cases hemp : (liveEntries l).isEmpty
  · rw [if_pos hemp]
  · rw [if_neg hemp]
    have hn0 : n ≠ 0 := by omega
    rw [if_neg hn0]
    cases hscan : pruneScanTail n (liveEntries l).reverse 0 with
    | none => rfl
    | some r =>
      have := pruneScanTail_countP _ n 0 r (by omega) hscan
      rw [List.countP_reverse] at this
      omega

/-- When the list holds at least `n ≥ 1` snapshots, pruning keeps exactly the
suffix headed by the `n`-th newest snapshot: the kept live sequence starts
with a snapshot event and contains exactly `n` snapshots. -/
theorem PruneLogLength_keep (n : Nat) (l : TTEventList) (h : WFList l)
    (hn : 1 ≤ n) (hcount : n ≤ (liveEntries l).countP isSnapshotEvent) :
    (liveEntries (PruneLogLength n l)).countP isSnapshotEvent = n ∧
      ∃ e rest, liveEntries (PruneLogLength n l) = e :: rest ∧
        isSnapshotEvent e = true := by
  have hne : ¬ (liveEntries l).isEmpty := by
    intro hcon
    rw [List.isEmpty_iff] at hcon
    rw [hcon] at hcount
    simp [List.countP_nil] at hcount
    omega
  have hn0 : n ≠ 0 := by omega
  have hsome : (pruneScanTail n (liveEntries l).reverse 0).isSome :=
    pruneScanTail_isSome _ n 0 (by omega) (by rw [List.countP_reverse]; exact hcount)
  obtain ⟨r, hscan⟩ := Option.isSome_iff_exists.mp hsome
  obtain ⟨j, hr, hj1, hjlen, hjcount, e, hget, hsnap⟩ :=
    pruneScanTail_spec _ n 0 r (by omega) hscan
  have hres : PruneLogLength n l = (deleteFirstN ((liveEntries l).length - j) l).2 := by
    unfold PruneLogLength
    rw [if_neg hne, if_neg hn0, hscan, show r = j from by omega]
  have hlen : j ≤ (liveEntries l).length := by
    simpa using hjlen
  have hlive : liveEntries (PruneLogLength n l) =
      ((liveEntries l).reverse.take j).reverse := by
    rw [hres, (deleteFirstN_spec _ l h (by omega)).2.1]
    rw [List.reverse_take, List.reverse_reverse, List.length_reverse]
  constructor
  · rw [hlive, List.countP_reverse, hjcount]
  · have hhead : (liveEntries (PruneLogLength n l)).head? = some e := by
      rw [hlive, List.head?_reverse]
      have hlt : (liveEntries l).reverse.take j ≠ [] := by
        intro hcon
        have hlen0 := congrArg List.length hcon
        rw [List.length_take, List.length_reverse] at hlen0
        simp only [List.length_nil] at hlen0
        omega
      rw [List.getLast?_eq_getElem? _]
      have hlentake : ((liveEntries l).reverse.take j).length = j := by
        rw [List.length_take, List.length_reverse]
        omega
      rw [hlentake, List.getElem?_take_of_lt (by omega)]
      exact hget
    cases hll : liveEntries (PruneLogLength n l) with
    | nil => rw [hll] at hhead; simp at hhead
    | cons a t =>
      rw [hll] at hhead
      simp only [List.head?_cons, Option.some.injEq] at hhead
      exact ⟨a, t, rfl, hhead ▸ hsnap⟩

/-! ### Specification lemmas for the snapshot search -/

theorem findSnapLoop_eq_firstTimeLE (T : Int) (es : List EventLogEntry) :
    findSnapLoop T es = firstTimeLE T (validSnapTimes es) := by
  induction es with
  | nil => rfl
  | cons e older ih =>
    unfold findSnapLoop validSnapTimes
    by_cases hv : validSnapEntry e
    · rw [List.filter_cons_of_pos hv, List.map_cons]
      unfold firstTimeLE
      by_cases hle : snapEntryTime e ≤ T
      · rw [if_pos (by simp [hv, hle]), if_pos hle]
      · rw [if_neg (by simp [hle]), if_neg hle]
        exact ih
    · rw [List.filter_cons_of_neg (by simpa using hv)]
      rw [if_neg (by simp [hv])]
      exact ih

/-- On a strictly descending list, `firstTimeLE` returns the maximum element
`≤ T` and `-1` when there is none. -/
theorem firstTimeLE_spec (T : Int) (ws : List Int)
    (hdesc : List.Pairwise (fun a b => b < a) ws) :
    (ws.filter (fun t => decide (t ≤ T)) = [] → firstTimeLE T ws = -1) ∧
      (ws.filter (fun t => decide (t ≤ T)) ≠ [] →
        firstTimeLE T ws ∈ ws.filter (fun t => decide (t ≤ T)) ∧
          ∀ t ∈ ws.filter (fun t => decide (t ≤ T)), t ≤ firstTimeLE T ws) := by
  induction ws with
  | nil => exact ⟨fun _ => rfl, fun hcon => absurd rfl hcon⟩
  | cons w rest ih =>
    have hw : ∀ t ∈ rest, t < w := fun t ht => (List.pairwise_cons.mp hdesc).1 t ht
    have ihr := ih (List.pairwise_cons.mp hdesc).2
    unfold firstTimeLE
    by_cases hle : w ≤ T
    · rw [if_pos hle]
      rw [List.filter_cons_of_pos (by simpa using hle)]
      refine ⟨fun hcon => by simp at hcon, fun _ => ⟨by simp, ?_⟩⟩
      intro t ht
      rcases List.mem_cons.mp ht with ht | ht
      · omega
      · exact le_of_lt (hw t (List.mem_of_mem_filter ht))
    · rw [if_neg hle]
      rw [List.filter_cons_of_neg (by simpa using hle)]
      exact ihr

theorem validSnapTimes_reverse (es : List EventLogEntry) :
    validSnapTimes es.reverse = (validSnapTimes es).reverse := by
  unfold validSnapTimes
  rw [List.filter_reverse, List.map_reverse]

/-! ### Specification lemmas for the mode machinery -/

theorem computeModeAux_spec (rest : List Nat) :
    ∀ (cm : Nat), (∀ m ∈ rest, isModifierMode m = true) →
      computeModeAux rest cm = some (rest.foldl (· ||| ·) cm) := by
  induction rest with
  | nil => intro cm _; rfl
  | cons m ms ih =>
    intro cm hmods
    unfold computeModeAux
    rw [if_pos (hmods m (by simp))]
    rw [ih (cm ||| m) (fun x hx => hmods x (by simp [hx]))]
    rfl

/-- On a well-formed stack, `UpdateComputedMode` fires no assertion and
computes the OR of the whole stack. -/
theorem UpdateComputedMode_wf (st : List Nat) (h : WFModeStack st) :
    UpdateComputedMode st = some (modeStackOr st) := by
  obtain ⟨m0, rest, rfl, hbase, hmods⟩ := h
  unfold UpdateComputedMode
  show (if isBaseMode m0 = true then computeModeAux rest m0 else none) = _
  rw [if_pos hbase, computeModeAux_spec rest m0 hmods]
  unfold modeStackOr
  rw [List.foldl_cons, Nat.zero_or]

theorem modeStackOr_concat (st : List Nat) (m : Nat) :
    modeStackOr (st ++ [m]) = modeStackOr st ||| m := by
  unfold modeStackOr
  rw [List.foldl_append]
  rfl

/-- Any excluded-execution bit in the computed mode forces all four
should-perform flags off (`SetModeFlagsOnContext` masks the excluded bits into
every comparison, and no comparison target contains them). -/
theorem SetModeFlags_excluded_helper (cm mask target : Nat) (i : Nat)
    (hc : cm.testBit i = true) (hmask : mask.testBit i = true)
    (htarget : target.testBit i = false) : ((cm &&& mask) == target) = false := by
  rw [beq_eq_false_iff_ne]
  intro heq
  have hbit := congrArg (fun x => x.testBit i) heq
  simp only [Nat.testBit_land, hc, hmask, Bool.and_self, htarget] at hbit
  exact Bool.noConfusion hbit

theorem excluded_bit_of_land (cm : Nat) (h : cm &&& TTDMode.AnyExcludedMode ≠ 0) :
    cm.testBit 8 = true ∨ cm.testBit 9 = true := by
  obtain ⟨i, hi, _⟩ := Nat.exists_most_significant_bit h
  rw [Nat.testBit_land, Bool.and_eq_true] at hi
  obtain ⟨hcm, hmask⟩ := hi
  have hilt : i < 10 := by
    by_contra hge
    have hlt : TTDMode.AnyExcludedMode < 2 ^ i :=
      lt_of_lt_of_le (by decide : TTDMode.AnyExcludedMode < 2 ^ 10)
        (Nat.pow_le_pow_right (by omega) (by omega))
    rw [Nat.testBit_eq_false_of_lt hlt] at hmask
    exact Bool.false_ne_true hmask
  have hi89 : i = 8 ∨ i = 9 := by
    interval_cases i
    all_goals first
      | exact Or.inl rfl
      | exact Or.inr rfl
      | exact absurd hmask (by decide)
  rcases hi89 with rfl | rfl
  · exact Or.inl hcm
  · exact Or.inr hcm

/-! ### Specification lemmas for the record path -/

theorem getLast?_drop_of_ne_nil (ts : List Int) (k : Nat) (h : ts.drop k ≠ []) :
    (ts.drop k).getLast? = ts.getLast? := by
  conv_rhs => rw [← List.take_append_drop k ts]
  rw [List.getLast?_append]
  cases hd : (ts.drop k).getLast? with
  | none => exact absurd (List.getLast?_eq_none_iff.mp hd) h
  | some a => rfl

theorem RecordGetInitializedEvent_ctr (k : EventKind) (payload : Nat)
    (s : EventLogRecordState) :
    (RecordGetInitializedEvent k payload s).eventTimeCtr = s.eventTimeCtr + 1 := rfl

/-- Recording one event preserves the stamp invariant and appends the
counter's value as the new stamp. -/
theorem recordStampInvariant_record (k : EventKind) (payload : Nat)
    (s : EventLogRecordState) (h : recordStampInvariant s) :
    recordStampInvariant (RecordGetInitializedEvent k payload s) ∧
      eventTimes (RecordGetInitializedEvent k payload s).eventList =
        eventTimes s.eventList ++ [s.eventTimeCtr] := by
  obtain ⟨hwf, hchain, hlt, hlast⟩ := h
  have hlive : liveEntries (RecordGetInitializedEvent k payload s).eventList =
      liveEntries s.eventList ++
        [{ EventKind := k, EventTimeStamp := s.eventTimeCtr,
           RestoreTimestamp := s.eventTimeCtr, CallEventTime := s.eventTimeCtr,
           Payload := payload }] :=
    liveEntries_GetNextAvailableEntry s.eventList _ hwf
  have htimes : eventTimes (RecordGetInitializedEvent k payload s).eventList =
      eventTimes s.eventList ++ [s.eventTimeCtr] := by
    unfold eventTimes
    rw [hlive, List.map_append]
    rfl
  refine ⟨⟨WFList_GetNextAvailableEntry s.eventList _ hwf, ?_, ?_, ?_⟩, htimes⟩
  · unfold consecutiveTimestamps at hchain ⊢
    rw [hlive, List.chain'_append]
    refine ⟨hchain, List.chain'_singleton _, ?_⟩
    intro x hx y hy
    simp only [List.head?_cons, Option.mem_def, Option.some.injEq] at hy
    subst hy
    have hxs : (eventTimes s.eventList).getLast? = some x.EventTimeStamp := by
      unfold eventTimes
      rw [List.getLast?_map, hx]
      rfl
    have hne : eventTimes s.eventList ≠ [] := by
      intro hcon
      rw [hcon] at hxs
      exact Option.noConfusion hxs
    rw [hxs] at hlast
    simp only [Option.getD_some] at hlast
    show s.eventTimeCtr = x.EventTimeStamp + 1
    omega
  · intro t ht
    rw [htimes] at ht
    rcases List.mem_append.mp ht with ht | ht
    · have := hlt t ht
      rw [RecordGetInitializedEvent_ctr]
      omega
    · simp only [List.mem_singleton] at ht
      rw [RecordGetInitializedEvent_ctr, ht]
      omega
  · rw [htimes, List.getLast?_concat, RecordGetInitializedEvent_ctr]
    simp

/-- Pruning preserves the stamp invariant (it only drops a prefix of the live
sequence and leaves the counter alone). -/
theorem recordStampInvariant_prune (n : Nat) (s : EventLogRecordState)
    (h : recordStampInvariant s) :
    recordStampInvariant { s with eventList := PruneLogLength n s.eventList } := by
  obtain ⟨hwf, hchain, hlt, hlast⟩ := h
  obtain ⟨j, hj, hdrop, hwf'⟩ := PruneLogLength_drop n s.eventList hwf
  have htimes : eventTimes (PruneLogLength n s.eventList) =
      (eventTimes s.eventList).drop j := by
    unfold eventTimes
    rw [hdrop, List.map_drop]
  refine ⟨hwf', ?_, ?_, ?_⟩
  · unfold consecutiveTimestamps at hchain ⊢
    rw [hdrop]
    exact hchain.drop j
  · intro t ht
    rw [htimes] at ht
    exact hlt t (List.mem_of_mem_drop ht)
  · show (eventTimes (PruneLogLength n s.eventList)).getLast?.getD
      (s.eventTimeCtr - 1) = s.eventTimeCtr - 1
    rw [htimes]
    by_cases hne : (eventTimes s.eventList).drop j = []
    · rw [hne]
      rfl
    · rw [getLast?_drop_of_ne_nil _ j hne]
      exact hlast

/-- The effect of one record operation on the invariant, the assigned stamps
and the counter. -/
theorem runRecordOp_spec (op : RecordOp) (s : EventLogRecordState)
    (h : recordStampInvariant s) :
    recordStampInvariant (runRecordOp op s).1 ∧
      (∀ t ∈ (runRecordOp op s).2, t = s.eventTimeCtr) ∧
      s.eventTimeCtr ≤ (runRecordOp op s).1.eventTimeCtr ∧
      (∀ t ∈ (runRecordOp op s).2, t < (runRecordOp op s).1.eventTimeCtr) := by
  cases op with
  | record k payload =>
    refine ⟨(recordStampInvariant_record k payload s h).1, ?_, ?_, ?_⟩
    · intro t ht
      simp only [runRecordOp, List.mem_singleton] at ht
      exact ht
    · rw [show (runRecordOp (.record k payload) s).1 =
        RecordGetInitializedEvent k payload s from rfl, RecordGetInitializedEvent_ctr]
      omega
    · intro t ht
      simp only [runRecordOp, List.mem_singleton] at ht
      rw [show (runRecordOp (.record k payload) s).1 =
        RecordGetInitializedEvent k payload s from rfl, RecordGetInitializedEvent_ctr, ht]
      omega
  | prune n =>
    exact ⟨recordStampInvariant_prune n s h, by intro t ht; simp [runRecordOp] at ht,
      Int.le_refl _, by intro t ht; simp [runRecordOp] at ht⟩

/-- Running any sequence of record operations preserves the invariant and
assigns a strictly increasing sequence of stamps. -/
theorem runRecordOps_spec (ops : List RecordOp) :
    ∀ (s : EventLogRecordState), recordStampInvariant s →
      recordStampInvariant (runRecordOps ops s).1 ∧
        List.Chain' (· < ·) (runRecordOps ops s).2 ∧
        (∀ t ∈ (runRecordOps ops s).2, s.eventTimeCtr ≤ t) ∧
        s.eventTimeCtr ≤ (runRecordOps ops s).1.eventTimeCtr := by
  induction ops with
  | nil =>
    intro s h
    exact ⟨h, List.chain'_nil, by intro t ht; simp [runRecordOps] at ht, Int.le_refl _⟩
  | cons op ops ih =>
    intro s h
    obtain ⟨h1, h2, h3, h4⟩ := runRecordOp_spec op s h
    obtain ⟨g1, g2, g3, g4⟩ := ih (runRecordOp op s).1 h1
    have hshape : runRecordOps (op :: ops) s =
        ((runRecordOps ops (runRecordOp op s).1).1,
          (runRecordOp op s).2 ++ (runRecordOps ops (runRecordOp op s).1).2) := rfl
    rw [hshape]
    refine ⟨g1, ?_, ?_, le_trans h3 g4⟩
    · rw [List.chain'_append]
      refine ⟨?_, g2, ?_⟩
      · cases op with
        | record k payload => simp [runRecordOp]
        | prune n => simp [runRecordOp]
      · intro x hx y hy
        have hx' : x ∈ (runRecordOp op s).2 := by
          cases hgl : (runRecordOp op s).2.getLast? with
          | none => rw [hgl] at hx; exact absurd hx (by simp)
          | some a =>
            rw [hgl] at hx
            simp only [Option.mem_def, Option.some.injEq] at hx
            subst hx
            exact List.mem_of_getLast?_eq_some hgl
        have hy' : y ∈ (runRecordOps ops (runRecordOp op s).1).2 := by
          cases hhd : (runRecordOps ops (runRecordOp op s).1).2.head? with
          | none => rw [hhd] at hy; exact absurd hy (by simp)
          | some a =>
            rw [hhd] at hy
            simp only [Option.mem_def, Option.some.injEq] at hy
            subst hy
            exact List.mem_of_mem_head? (by rw [hhd]; rfl)
        calc x < (runRecordOp op s).1.eventTimeCtr := h4 x hx'
          _ ≤ y := g3 y hy'
    · intro t ht
      rcases List.mem_append.mp ht with ht | ht
      · rw [h2 t ht]
      · exact le_trans h3 (g3 t ht)

/-! ### Specification lemmas for serialization -/

theorem map_emit_flatten (es : List EventLogEntry) :
    (es.map EventLogEntry_Emit).flatten = es.map LogToken.eventTok := by
  induction es with
  | nil => rfl
  | cons e rest ih => simp [EventLogEntry_Emit, ih]

/-- Parsing back `n = evts.length` emitted events rebuilds, via
`GetNextAvailableEntry`, an event list whose live sequence extends the
accumulator's by exactly those events. -/
theorem parseEventsLoop_spec (evts : List EventLogEntry) :
    ∀ (acc : TTEventList) (rest : List LogToken), WFList acc →
      ∃ L, parseEventsLoop evts.length acc (evts.map LogToken.eventTok ++ rest) =
          some (L, rest) ∧
        liveEntries L = liveEntries acc ++ evts ∧ WFList L := by
  induction evts with
  | nil =>
    intro acc rest h
    exact ⟨acc, rfl, by simp, h⟩
  | cons e es ih =>
    intro acc rest h
    obtain ⟨L, hL, hlive, hwf⟩ :=
      ih (GetNextAvailableEntry acc e) rest (WFList_GetNextAvailableEntry acc e h)
    refine ⟨L, ?_, ?_, hwf⟩
    · show parseEventsLoop (es.length + 1) acc
        (LogToken.eventTok e :: (es.map LogToken.eventTok ++ rest)) = some (L, rest)
      unfold parseEventsLoop EventLogEntry_Parse
      exact hL
    · rw [hlive, liveEntries_GetNextAvailableEntry acc e h]
      simp

theorem readPropertyRecords_spec (ps : List Nat) :
    ∀ (rest : List LogToken),
      readPropertyRecords ps.length (ps.map LogToken.propertyTok ++ rest) =
        some (ps, rest) := by
  induction ps with
  | nil => intro rest; rfl
  | cons p ps ih =>
    intro rest
    show readPropertyRecords (ps.length + 1)
      (LogToken.propertyTok p :: (ps.map LogToken.propertyTok ++ rest)) = _
    unfold readPropertyRecords
    rw [ih rest]

theorem readScriptInfos_spec (vs : List Nat) :
    ∀ (rest : List LogToken),
      readScriptInfos vs.length (vs.map LogToken.scriptTok ++ rest) =
        some (vs, rest) := by
  induction vs with
  | nil => intro rest; rfl
  | cons v vs ih =>
    intro rest
    show readScriptInfos (vs.length + 1)
      (LogToken.scriptTok v :: (vs.map LogToken.scriptTok ++ rest)) = _
    unfold readScriptInfos
    rw [ih rest]

/-- Parsing the emitted token stream succeeds and reconstructs every section:
the live event sequence bit-for-bit, the property records and the three
top-level script tables. -/
theorem ParseLogInto_EmitLog (log : EventLogSerializeState)
    (h : WFList log.eventList) :
    ∃ P, ParseLogInto (EmitLog log) = some P ∧
      liveEntries P.eventList = liveEntries log.eventList ∧
      WFList P.eventList ∧
      P.propertyRecordList = log.properties ∧
      P.loadedTopLevelScripts = log.loadedTopLevelScripts ∧
      P.newFunctionTopLevelScripts = log.newFunctionTopLevelScripts ∧
      P.evalTopLevelScripts = log.evalTopLevelScripts := by
  obtain ⟨L, hL, hlive, hwf⟩ :=
    parseEventsLoop_spec (liveEntries log.eventList) [] (LogToken.seqEnd ::
      (LogToken.lengthTok log.properties.length :: LogToken.seqStart ::
        (log.properties.map LogToken.propertyTok ++
          (LogToken.seqEnd :: LogToken.lengthTok log.loadedTopLevelScripts.length ::
            LogToken.seqStart :: (log.loadedTopLevelScripts.map LogToken.scriptTok ++
              (LogToken.seqEnd :: LogToken.lengthTok log.newFunctionTopLevelScripts.length ::
                LogToken.seqStart :: (log.newFunctionTopLevelScripts.map LogToken.scriptTok ++
                  (LogToken.seqEnd :: LogToken.lengthTok log.evalTopLevelScripts.length ::
                    LogToken.seqStart :: (log.evalTopLevelScripts.map LogToken.scriptTok ++
                      [LogToken.seqEnd, LogToken.recordEnd]))))))))) (by intro b hb; simp at hb)
  refine ⟨{ eventList := L, propertyRecordList := log.properties,
            loadedTopLevelScripts := log.loadedTopLevelScripts,
            newFunctionTopLevelScripts := log.newFunctionTopLevelScripts,
            evalTopLevelScripts := log.evalTopLevelScripts },
    ?_, by simpa using hlive, hwf, rfl, rfl, rfl, rfl⟩
  unfold EmitLog ParseLogInto
  rw [map_emit_flatten, TTEventListCount_eq log.eventList h]
  simp only [List.cons_append, List.nil_append, List.append_assoc]
  unfold readToken readString readBool readUInt64 readLength
  simp only [reduceIte, reduceCtorEq]
  rw [if_neg (by decide : ¬ ("x64" : String) ≠ "x64")]
  rw [hL]
  simp only [reduceIte, reduceCtorEq]
  rw [readPropertyRecords_spec]
  simp only [reduceIte, reduceCtorEq]
  rw [readScriptInfos_spec]
  simp only [reduceIte, reduceCtorEq]
  rw [readScriptInfos_spec]
  simp only [reduceIte, reduceCtorEq]
  rw [readScriptInfos_spec]
  simp only [reduceIte, reduceCtorEq]

/-! ### Remaining helper lemmas -/

theorem base_ne_modifier (m : Nat) (h1 : isBaseMode m = true)
    (h2 : isModifierMode m = true) : False := by
  unfold isBaseMode at h1
  simp only [Bool.or_eq_true, decide_eq_true_eq] at h1
  rcases h1 with (h1 | h1) | h1 <;> subst h1 <;> exact absurd h2 (by decide)

theorem WFModeStack_dropLast (st : List Nat) (m : Nat) (hwf : WFModeStack st)
    (hmod : isModifierMode m = true) (htop : st.getLast? = some m) :
    WFModeStack st.dropLast := by
  obtain ⟨m0, rest, rfl, hbase, hmods⟩ := hwf
  cases rest with
  | nil =>
    simp only [List.getLast?_singleton, Option.some.injEq] at htop
    exact absurd hmod (by subst htop; intro hcon; exact base_ne_modifier m0 hbase hcon)
  | cons r rs =>
    refine ⟨m0, (r :: rs).dropLast, ?_, hbase, ?_⟩
    · rfl
    · intro x hx
      exact hmods x ((List.dropLast_sublist (r :: rs)).mem hx)

theorem WFModeStack_push (st : List Nat) (m : Nat) (hwf : WFModeStack st)
    (hmod : isModifierMode m = true) : WFModeStack (st ++ [m]) := by
  obtain ⟨m0, rest, rfl, hbase, hmods⟩ := hwf
  refine ⟨m0, rest ++ [m], rfl, hbase, ?_⟩
  intro x hx
  rcases List.mem_append.mp hx with hx | hx
  · exact hmods x hx
  · simp only [List.mem_singleton] at hx
    subst hx
    exact hmod

theorem WFModeStack_set0 (st : List Nat) (m : Nat) (hwf : WFModeStack st)
    (hbase : isBaseMode m = true) : WFModeStack (st.set 0 m) := by
  obtain ⟨m0, rest, rfl, _, hmods⟩ := hwf
  exact ⟨m, rest, rfl, hbase, hmods⟩

/-- Any set excluded-execution bit turns off all four should-perform flags. -/
theorem SetModeFlags_excluded_all (cm : Nat)
    (h : cm &&& TTDMode.AnyExcludedMode ≠ 0) :
    (SetModeFlagsOnContext cm).TTDShouldPerformRecordAction = false ∧
      (SetModeFlagsOnContext cm).TTDShouldPerformReplayAction = false ∧
      (SetModeFlagsOnContext cm).TTDShouldPerformRecordOrReplayAction = false ∧
      (SetModeFlagsOnContext cm).TTDShouldPerformDebuggerAction = false := by
  have hrec : (SetModeFlagsOnContext cm).TTDShouldPerformRecordAction =
      ((cm &&& (TTDMode.RecordMode ||| TTDMode.CurrentlyEnabled ||| TTDMode.AnyExcludedMode)) ==
        (TTDMode.RecordMode ||| TTDMode.CurrentlyEnabled)) := rfl
  have hrep : (SetModeFlagsOnContext cm).TTDShouldPerformReplayAction =
      ((cm &&& (TTDMode.ReplayMode ||| TTDMode.CurrentlyEnabled ||| TTDMode.AnyExcludedMode)) ==
        (TTDMode.ReplayMode ||| TTDMode.CurrentlyEnabled)) := rfl
  have hdbg : (SetModeFlagsOnContext cm).TTDShouldPerformDebuggerAction =
      ((cm &&& (TTDMode.DebuggerMode ||| TTDMode.CurrentlyEnabled ||| TTDMode.AnyExcludedMode)) ==
        (TTDMode.DebuggerMode ||| TTDMode.CurrentlyEnabled)) := rfl
  have hor : (SetModeFlagsOnContext cm).TTDShouldPerformRecordOrReplayAction =
      ((SetModeFlagsOnContext cm).TTDShouldPerformRecordAction ||
        (SetModeFlagsOnContext cm).TTDShouldPerformReplayAction) := rfl
  rcases excluded_bit_of_land cm h with hbit | hbit
  · have h1 := SetModeFlags_excluded_helper cm
      (TTDMode.RecordMode ||| TTDMode.CurrentlyEnabled ||| TTDMode.AnyExcludedMode)
      (TTDMode.RecordMode ||| TTDMode.CurrentlyEnabled) 8 hbit (by decide) (by decide)
    have h2 := SetModeFlags_excluded_helper cm
      (TTDMode.ReplayMode ||| TTDMode.CurrentlyEnabled ||| TTDMode.AnyExcludedMode)
      (TTDMode.ReplayMode ||| TTDMode.CurrentlyEnabled) 8 hbit (by decide) (by decide)
    have h3 := SetModeFlags_excluded_helper cm
      (TTDMode.DebuggerMode ||| TTDMode.CurrentlyEnabled ||| TTDMode.AnyExcludedMode)
      (TTDMode.DebuggerMode ||| TTDMode.CurrentlyEnabled) 8 hbit (by decide) (by decide)
    refine ⟨hrec.trans h1, hrep.trans h2, ?_, hdbg.trans h3⟩
    rw [hor, hrec.trans h1, hrep.trans h2]
    rfl
  · have h1 := SetModeFlags_excluded_helper cm
      (TTDMode.RecordMode ||| TTDMode.CurrentlyEnabled ||| TTDMode.AnyExcludedMode)
      (TTDMode.RecordMode ||| TTDMode.CurrentlyEnabled) 9 hbit (by decide) (by decide)
    have h2 := SetModeFlags_excluded_helper cm
      (TTDMode.ReplayMode ||| TTDMode.CurrentlyEnabled ||| TTDMode.AnyExcludedMode)
      (TTDMode.ReplayMode ||| TTDMode.CurrentlyEnabled) 9 hbit (by decide) (by decide)
    have h3 := SetModeFlags_excluded_helper cm
      (TTDMode.DebuggerMode ||| TTDMode.CurrentlyEnabled ||| TTDMode.AnyExcludedMode)
      (TTDMode.DebuggerMode ||| TTDMode.CurrentlyEnabled) 9 hbit (by decide) (by decide)
    refine ⟨hrec.trans h1, hrep.trans h2, ?_, hdbg.trans h3⟩
    rw [hor, hrec.trans h1, hrep.trans h2]
    rfl

/-! ## The claims -/

/-- C6: On a well-formed mode stack, `PopMode m` requires `m` to be a valid
modifier equal to the stack top; it then removes exactly the top element, and
after every pop, push or `SetGlobalMode` the recomputed current mode equals
the OR of the whole stack (base mode in slot 0, modifier bits above), the
assertion branches being unreachable (`some` is always returned). -/
theorem claim_C6_mode_stack_lifo (s : ModeState) (m : Nat)
    (hwf : WFModeStack s.modeStack) :
    (isModifierMode m = true → s.modeStack.getLast? = some m →
      PopMode m s = some { modeStack := s.modeStack.dropLast, currentMode := modeStackOr s.modeStack.dropLast }) ∧
    (isModifierMode m = true →
      PushMode m s = some { modeStack := s.modeStack ++ [m], currentMode := modeStackOr (s.modeStack ++ [m]) }) ∧
    (isBaseMode m = true →
      SetGlobalMode m s = some { modeStack := s.modeStack.set 0 m, currentMode := modeStackOr (s.modeStack.set 0 m) }) := by
  refine ⟨?_, ?_, ?_⟩
  · intro hmod htop
    unfold PopMode
    rw [if_pos (by rw [hmod, htop]; simp),
      UpdateComputedMode_wf _ (WFModeStack_dropLast s.modeStack m hwf hmod htop)]
  · intro hmod
    unfold PushMode
    rw [if_pos hmod, UpdateComputedMode_wf _ (WFModeStack_push s.modeStack m hwf hmod)]
  · intro hbase
    unfold SetGlobalMode
    rw [if_pos hbase, UpdateComputedMode_wf _ (WFModeStack_set0 s.modeStack m hwf hbase)]

/-- Witness for C6 at a concrete state: base `RecordMode` with
`CurrentlyEnabled` pushed; popping `CurrentlyEnabled` yields the singleton
base stack with computed mode `RecordMode`. -/
theorem claim_C6_mode_stack_lifo_witness :
    PopMode TTDMode.CurrentlyEnabled
        { modeStack := [TTDMode.RecordMode, TTDMode.CurrentlyEnabled], currentMode := TTDMode.RecordMode ||| TTDMode.CurrentlyEnabled } =
      some { modeStack := [TTDMode.RecordMode], currentMode := modeStackOr [TTDMode.RecordMode] } :=
  (claim_C6_mode_stack_lifo
    { modeStack := [TTDMode.RecordMode, TTDMode.CurrentlyEnabled], currentMode := TTDMode.RecordMode ||| TTDMode.CurrentlyEnabled }
    TTDMode.CurrentlyEnabled (by refine ⟨TTDMode.RecordMode, [TTDMode.CurrentlyEnabled], rfl, by decide, by decide⟩)).1
    (by decide) (by decide)

/-- C7: When the replay iterator has moved past the last available event (is
invalid), both `ReplaySingleRootEntry` and `ReplaySingleActionEventEntry`
throw the end-of-log abort exception exactly once, before any attempt to read
the current event (the functions return the abort without touching the event
list); when the iterator is valid no abort is thrown. -/
theorem claim_C7_replay_past_end (s : ReplayState) :
    (replayIterValid s = false →
      ReplaySingleRootEntry s = Except.error CreateAbortEndOfLog ∧
        ReplaySingleActionEventEntry s = Except.error CreateAbortEndOfLog) ∧
    (replayIterValid s = true →
      (∃ s₁, ReplaySingleRootEntry s = Except.ok s₁) ∧
        ∃ s₂, ReplaySingleActionEventEntry s = Except.ok s₂) := by
  constructor
  · intro hinv
    unfold ReplaySingleRootEntry ReplaySingleActionEventEntry
    rw [if_neg (by rw [hinv]; simp), if_neg (by rw [hinv]; simp)]
    exact ⟨rfl, rfl⟩
  · intro hval
    have hact : ReplaySingleActionEventEntry s =
        Except.ok (AdvanceTimeAndPositionForReplay s) := by
      unfold ReplaySingleActionEventEntry
      rw [if_pos hval]
    refine ⟨?_, AdvanceTimeAndPositionForReplay s, hact⟩
    unfold ReplaySingleRootEntry
    rw [if_pos hval]
    by_cases h1 : (replayCurrent s).EventKind = EventKind.SnapshotTag
    · rw [if_pos h1]
      exact ⟨ReplaySnapshotEvent s, rfl⟩
    · rw [if_neg h1]
      by_cases h2 : (replayCurrent s).EventKind = EventKind.EventLoopYieldPointTag
      · rw [if_pos h2]
        exact ⟨ReplayEventLoopYieldPointEvent s, rfl⟩
      · rw [if_neg h2, hact]
        exact ⟨AdvanceTimeAndPositionForReplay s, rfl⟩

/-- Witness for C7: a replay state whose iterator sits one past its single
event aborts; the same state repositioned at the event replays it. -/
theorem claim_C7_replay_past_end_witness :
    (ReplaySingleRootEntry { eventTimeCtr := 1, entries := [{ EventKind := EventKind.DoubleTag, EventTimeStamp := 0 }], pos := 1 } =
      Except.error CreateAbortEndOfLog ∧
    ReplaySingleActionEventEntry { eventTimeCtr := 1, entries := [{ EventKind := EventKind.DoubleTag, EventTimeStamp := 0 }], pos := 1 } =
      Except.error CreateAbortEndOfLog) ∧
    ∃ s₂, ReplaySingleActionEventEntry { eventTimeCtr := 0, entries := [{ EventKind := EventKind.DoubleTag, EventTimeStamp := 0 }], pos := 0 } =
      Except.ok s₂ :=
  ⟨(claim_C7_replay_past_end { eventTimeCtr := 1, entries := [{ EventKind := EventKind.DoubleTag, EventTimeStamp := 0 }], pos := 1 }).1
      (by decide),
   ((claim_C7_replay_past_end { eventTimeCtr := 0, entries := [{ EventKind := EventKind.DoubleTag, EventTimeStamp := 0 }], pos := 0 }).2
      (by decide)).2⟩

/-- C8: For every non-empty shadow call stack, `PopCallEventException` records
the popped frame as the last exception location only when no exception
location is already recorded (an existing exception location is preserved —
first raiser wins), whereas `PopCallEvent` always overwrites the last return
location with the popped frame; both pops remove exactly the top frame and
advance the running function-time counter. -/
theorem claim_C8_pop_call_events (s : CallStackState) (f : SingleCallCounter)
    (htop : s.callStack.getLast? = some f) :
    (PopCallEvent s).callStack = s.callStack.dropLast ∧
      (PopCallEventException s).callStack = s.callStack.dropLast ∧
      (PopCallEvent s).runningFunctionTimeCtr = s.runningFunctionTimeCtr + 1 ∧
      (PopCallEventException s).runningFunctionTimeCtr = s.runningFunctionTimeCtr + 1 ∧
      (PopCallEvent s).lastReturnLocation =
        TTLastReturnLocationInfo.SetReturnLocation f ∧
      (s.lastReturnLocation.IsExceptionLocation = true →
        (PopCallEventException s).lastReturnLocation = s.lastReturnLocation) ∧
      (s.lastReturnLocation.IsExceptionLocation = false →
        (PopCallEventException s).lastReturnLocation =
          TTLastReturnLocationInfo.SetExceptionLocation f) := by
  refine ⟨rfl, rfl, rfl, rfl, ?_, ?_, ?_⟩
  · show TTLastReturnLocationInfo.SetReturnLocation (s.callStack.getLast?.getD default) = _
    rw [htop]
    rfl
  · intro hexc
    show (if !s.lastReturnLocation.IsExceptionLocation then _ else s.lastReturnLocation) = _
    rw [hexc]
    rfl
  · intro hexc
    show (if !s.lastReturnLocation.IsExceptionLocation then
      TTLastReturnLocationInfo.SetExceptionLocation (s.callStack.getLast?.getD default)
      else s.lastReturnLocation) = _
    rw [hexc, htop]
    rfl

/-- Witness for C8 at a concrete two-frame stack with a recorded exception
location: the exception pop preserves it, the normal pop overwrites the
return location. -/
theorem claim_C8_pop_call_events_witness :
    (PopCallEvent { callStack := [{ Function := 1 }, { Function := 2 }], lastReturnLocation := TTLastReturnLocationInfo.SetExceptionLocation { Function := 9 }, runningFunctionTimeCtr := 5 }).callStack = [{ Function := 1 }] ∧
    (PopCallEventException { callStack := [{ Function := 1 }, { Function := 2 }], lastReturnLocation := TTLastReturnLocationInfo.SetExceptionLocation { Function := 9 }, runningFunctionTimeCtr := 5 }).lastReturnLocation =
      TTLastReturnLocationInfo.SetExceptionLocation { Function := 9 } := by
  have h := claim_C8_pop_call_events
    { callStack := [{ Function := 1 }, { Function := 2 }], lastReturnLocation := TTLastReturnLocationInfo.SetExceptionLocation { Function := 9 }, runningFunctionTimeCtr := 5 } { Function := 2 } (by decide)
  exact ⟨h.1, h.2.2.2.2.2.1 (by decide)⟩

/-- C9: Across any sequence of `DeleteFirstEntry` calls followed by a final
`UnloadEventList` (a full prune-to-empty cycle), each record's unload function
is invoked at most once: `DeleteFirstEntry` unloads the record and advances
`StartPos` past it, and `UnloadEventList` only unloads records in the live
`[StartPos, CurrPos)` range of each block, so the unload trace is exactly the
(unloadable) live records, each once, and no record is unloaded more often
than it occurs in the list. -/
theorem claim_C9_unload_at_most_once (n : Nat) (l : TTEventList) (h : WFList l)
    (hn : n ≤ (liveEntries l).length) :
    pruneToEmptyCycleUnloads n l =
        (liveEntries l).filter (fun e => vtableHasUnloadFP e.EventKind) ∧
      ∀ e : EventLogEntry,
        (pruneToEmptyCycleUnloads n l).count e ≤ (liveEntries l).count e := by
  have htrace : pruneToEmptyCycleUnloads n l =
      (liveEntries l).filter (fun e => vtableHasUnloadFP e.EventKind) := by
    unfold pruneToEmptyCycleUnloads
    rw [(deleteFirstN_spec n l h hn).1, UnloadEventList_trace,
      (deleteFirstN_spec n l h hn).2.1, ← List.filter_append,
      List.take_append_drop]
  refine ⟨htrace, ?_⟩
  intro e
  rw [htrace]
  exact ((liveEntries l).filter_sublist).count_le e

set_option maxRecDepth 100000 in
/-- Witness for C9: a three-record list (snapshot, double, string), one
`DeleteFirstEntry` then `UnloadEventList`; the snapshot and the string record
are unloaded once each, the double record (no `UnloadFP`) never. -/
theorem claim_C9_unload_at_most_once_witness :
    pruneToEmptyCycleUnloads 1 (GetNextAvailableEntry (GetNextAvailableEntry (GetNextAvailableEntry [] { EventKind := EventKind.SnapshotTag, EventTimeStamp := 0 }) { EventKind := EventKind.DoubleTag, EventTimeStamp := 1 }) { EventKind := EventKind.StringTag, EventTimeStamp := 2 }) =
      [{ EventKind := EventKind.SnapshotTag, EventTimeStamp := 0 }, { EventKind := EventKind.StringTag, EventTimeStamp := 2 }] := by
  have h := claim_C9_unload_at_most_once 1
    (GetNextAvailableEntry (GetNextAvailableEntry (GetNextAvailableEntry [] { EventKind := EventKind.SnapshotTag, EventTimeStamp := 0 }) { EventKind := EventKind.DoubleTag, EventTimeStamp := 1 }) { EventKind := EventKind.StringTag, EventTimeStamp := 2 })
    (by decide) (by decide)
  rw [h.1]
  decide

/-- C10: For every computed mode in which an excluded-execution bit
(`ExcludedExecutionTTAction` or `ExcludedExecutionDebuggerAction`) is set,
`SetModeFlagsOnContext` sets `TTDShouldPerformRecordAction`,
`TTDShouldPerformReplayAction`, `TTDShouldPerformRecordOrReplayAction` and
`TTDShouldPerformDebuggerAction` to false; in particular, for the whole
window during which `DoSnapshotExtract` has `ExcludedExecutionTTAction`
pushed, the flags propagated to every live script context are all false. -/
theorem claim_C10_excluded_execution_flags (cm : Nat) (s : ModeState)
    (hwf : WFModeStack s.modeStack) :
    (cm &&& TTDMode.ExcludedExecutionTTAction ≠ 0 ∨
        cm &&& TTDMode.ExcludedExecutionDebuggerAction ≠ 0 →
      (SetModeFlagsOnContext cm).TTDShouldPerformRecordAction = false ∧
        (SetModeFlagsOnContext cm).TTDShouldPerformReplayAction = false ∧
        (SetModeFlagsOnContext cm).TTDShouldPerformRecordOrReplayAction = false ∧
        (SetModeFlagsOnContext cm).TTDShouldPerformDebuggerAction = false) ∧
    ∃ s', DoSnapshotExtractExcludedWindow s = some s' ∧
      (SetModeFlagsOnContext s'.currentMode).TTDShouldPerformRecordAction = false ∧
      (SetModeFlagsOnContext s'.currentMode).TTDShouldPerformReplayAction = false ∧
      (SetModeFlagsOnContext s'.currentMode).TTDShouldPerformRecordOrReplayAction = false ∧
      (SetModeFlagsOnContext s'.currentMode).TTDShouldPerformDebuggerAction = false := by
  constructor
  · intro hbit
    refine SetModeFlags_excluded_all cm ?_
    intro hzero
    rcases hbit with hbit | hbit
    · refine hbit ?_
      have h8 : TTDMode.ExcludedExecutionTTAction &&& TTDMode.AnyExcludedMode =
          TTDMode.ExcludedExecutionTTAction := by decide
      calc cm &&& TTDMode.ExcludedExecutionTTAction
          = cm &&& (TTDMode.AnyExcludedMode &&& TTDMode.ExcludedExecutionTTAction) := by
            rw [show TTDMode.AnyExcludedMode &&& TTDMode.ExcludedExecutionTTAction =
              TTDMode.ExcludedExecutionTTAction from by decide]
        _ = (cm &&& TTDMode.AnyExcludedMode) &&& TTDMode.ExcludedExecutionTTAction := by
            rw [Nat.land_assoc]
        _ = 0 := by rw [hzero]; rfl
    · refine hbit ?_
      calc cm &&& TTDMode.ExcludedExecutionDebuggerAction
          = cm &&& (TTDMode.AnyExcludedMode &&& TTDMode.ExcludedExecutionDebuggerAction) := by
            rw [show TTDMode.AnyExcludedMode &&& TTDMode.ExcludedExecutionDebuggerAction =
              TTDMode.ExcludedExecutionDebuggerAction from by decide]
        _ = (cm &&& TTDMode.AnyExcludedMode) &&& TTDMode.ExcludedExecutionDebuggerAction := by
            rw [Nat.land_assoc]
        _ = 0 := by rw [hzero]; rfl
  · have hmod : isModifierMode TTDMode.ExcludedExecutionTTAction = true := by decide
    have hpush : PushMode TTDMode.ExcludedExecutionTTAction s =
        some { modeStack := s.modeStack ++ [TTDMode.ExcludedExecutionTTAction], currentMode := modeStackOr (s.modeStack ++ [TTDMode.ExcludedExecutionTTAction]) } := by
      unfold PushMode
      rw [if_pos hmod, UpdateComputedMode_wf _ (WFModeStack_push s.modeStack _ hwf hmod)]
    refine ⟨_, hpush, ?_⟩
    refine SetModeFlags_excluded_all _ ?_
    intro hzero
    have hbit8 : (modeStackOr (s.modeStack ++ [TTDMode.ExcludedExecutionTTAction])).testBit 8 = true := by
      rw [modeStackOr_concat, Nat.testBit_lor]
      simp [show TTDMode.ExcludedExecutionTTAction.testBit 8 = true from by decide]
    have := congrArg (fun x => x.testBit 8) hzero
    simp only [Nat.testBit_land, hbit8, Nat.zero_testBit, Bool.true_and] at this
    rw [show TTDMode.AnyExcludedMode.testBit 8 = true from by decide] at this
    exact Bool.noConfusion this

/-- Witness for C10: the computed mode `RecordMode | CurrentlyEnabled |
ExcludedExecutionTTAction` has all four should-perform flags off, and pushing
the excluded mode on a concrete record-mode stack yields a window state whose
flags are all off. -/
theorem claim_C10_excluded_execution_flags_witness :
    ((SetModeFlagsOnContext (TTDMode.RecordMode ||| TTDMode.CurrentlyEnabled ||| TTDMode.ExcludedExecutionTTAction)).TTDShouldPerformRecordAction = false ∧
      (SetModeFlagsOnContext (TTDMode.RecordMode ||| TTDMode.CurrentlyEnabled ||| TTDMode.ExcludedExecutionTTAction)).TTDShouldPerformReplayAction = false ∧
      (SetModeFlagsOnContext (TTDMode.RecordMode ||| TTDMode.CurrentlyEnabled ||| TTDMode.ExcludedExecutionTTAction)).TTDShouldPerformRecordOrReplayAction = false ∧
      (SetModeFlagsOnContext (TTDMode.RecordMode ||| TTDMode.CurrentlyEnabled ||| TTDMode.ExcludedExecutionTTAction)).TTDShouldPerformDebuggerAction = false) ∧
    ∃ s', DoSnapshotExtractExcludedWindow { modeStack := [TTDMode.RecordMode, TTDMode.CurrentlyEnabled], currentMode := TTDMode.RecordMode ||| TTDMode.CurrentlyEnabled } = some s' ∧
      (SetModeFlagsOnContext s'.currentMode).TTDShouldPerformRecordAction = false ∧
      (SetModeFlagsOnContext s'.currentMode).TTDShouldPerformReplayAction = false ∧
      (SetModeFlagsOnContext s'.currentMode).TTDShouldPerformRecordOrReplayAction = false ∧
      (SetModeFlagsOnContext s'.currentMode).TTDShouldPerformDebuggerAction = false := by
  have h := claim_C10_excluded_execution_flags
    (TTDMode.RecordMode ||| TTDMode.CurrentlyEnabled ||| TTDMode.ExcludedExecutionTTAction)
    { modeStack := [TTDMode.RecordMode, TTDMode.CurrentlyEnabled], currentMode := TTDMode.RecordMode ||| TTDMode.CurrentlyEnabled }
    (by exact ⟨TTDMode.RecordMode, [TTDMode.CurrentlyEnabled], rfl, by decide, by decide⟩)
  exact ⟨h.1 (Or.inl (by decide)), h.2⟩

/-- C4: `PruneLogLength` deletes events only from the head (oldest end) of
the list, in FIFO order — the surviving live sequence is a suffix of the
original; it stops at the `N`-th-newest snapshot event (`N` = the configured
snapshot history length): when the list holds at least `N ≥ 1` snapshots,
every event at or after that snapshot is preserved (the surviving sequence
starts with a snapshot and holds exactly `N` snapshots); and when the list
holds fewer than `N` snapshots nothing is deleted. -/
theorem claim_C4_prune_log_length (n : Nat) (l : TTEventList) (h : WFList l) :
    (liveEntries (PruneLogLength n l) <:+ liveEntries l) ∧
      ((liveEntries l).countP isSnapshotEvent < n → PruneLogLength n l = l) ∧
      (1 ≤ n → n ≤ (liveEntries l).countP isSnapshotEvent →
        (liveEntries (PruneLogLength n l)).countP isSnapshotEvent = n ∧
          ∃ e rest, liveEntries (PruneLogLength n l) = e :: rest ∧
            isSnapshotEvent e = true) := by
  refine ⟨?_, PruneLogLength_noop n l, fun h1 h2 => PruneLogLength_keep n l h h1 h2⟩
  obtain ⟨k, _, hdrop, _⟩ := PruneLogLength_drop n l h
  rw [hdrop]
  exact List.drop_suffix k (liveEntries l)

set_option maxRecDepth 100000 in
/-- Witness for C4: five records — snapshot, double, snapshot, string,
double — pruned with history length 1 keep exactly the suffix headed by the
newest snapshot. -/
theorem claim_C4_prune_log_length_witness :
    (liveEntries (PruneLogLength 1 (GetNextAvailableEntry (GetNextAvailableEntry (GetNextAvailableEntry (GetNextAvailableEntry (GetNextAvailableEntry [] { EventKind := EventKind.SnapshotTag, EventTimeStamp := 0 }) { EventKind := EventKind.DoubleTag, EventTimeStamp := 1 }) { EventKind := EventKind.SnapshotTag, EventTimeStamp := 2 }) { EventKind := EventKind.StringTag, EventTimeStamp := 3 }) { EventKind := EventKind.DoubleTag, EventTimeStamp := 4 })) <:+ liveEntries (GetNextAvailableEntry (GetNextAvailableEntry (GetNextAvailableEntry (GetNextAvailableEntry (GetNextAvailableEntry [] { EventKind := EventKind.SnapshotTag, EventTimeStamp := 0 }) { EventKind := EventKind.DoubleTag, EventTimeStamp := 1 }) { EventKind := EventKind.SnapshotTag, EventTimeStamp := 2 }) { EventKind := EventKind.StringTag, EventTimeStamp := 3 }) { EventKind := EventKind.DoubleTag, EventTimeStamp := 4 })) ∧
    (liveEntries (PruneLogLength 1 (GetNextAvailableEntry (GetNextAvailableEntry (GetNextAvailableEntry (GetNextAvailableEntry (GetNextAvailableEntry [] { EventKind := EventKind.SnapshotTag, EventTimeStamp := 0 }) { EventKind := EventKind.DoubleTag, EventTimeStamp := 1 }) { EventKind := EventKind.SnapshotTag, EventTimeStamp := 2 }) { EventKind := EventKind.StringTag, EventTimeStamp := 3 }) { EventKind := EventKind.DoubleTag, EventTimeStamp := 4 }))).countP isSnapshotEvent = 1 := by
  have h := claim_C4_prune_log_length 1
    (GetNextAvailableEntry (GetNextAvailableEntry (GetNextAvailableEntry (GetNextAvailableEntry (GetNextAvailableEntry [] { EventKind := EventKind.SnapshotTag, EventTimeStamp := 0 }) { EventKind := EventKind.DoubleTag, EventTimeStamp := 1 }) { EventKind := EventKind.SnapshotTag, EventTimeStamp := 2 }) { EventKind := EventKind.StringTag, EventTimeStamp := 3 }) { EventKind := EventKind.DoubleTag, EventTimeStamp := 4 })
    (by decide)
  exact ⟨h.1, (h.2.2 (by decide) (by decide)).1⟩

/-- C3: For every event list whose qualifying restore-point times (snapshots,
or root calls with a restore-to-here snapshot) appear in increasing order (as
a single instance's recorder produces them), `FindSnapTimeForEventTime`
returns the largest qualifying time at or before the target, and `-1` when no
qualifying restore point at or before the target exists. -/
theorem claim_C3_find_snap_time (l : TTEventList) (T : Int)
    (hsorted : List.Pairwise (· < ·) (validSnapTimes (liveEntries l))) :
    ((validSnapTimes (liveEntries l)).filter (fun t => decide (t ≤ T)) = [] →
      FindSnapTimeForEventTime l T = -1) ∧
    ((validSnapTimes (liveEntries l)).filter (fun t => decide (t ≤ T)) ≠ [] →
      FindSnapTimeForEventTime l T ∈
          (validSnapTimes (liveEntries l)).filter (fun t => decide (t ≤ T)) ∧
        ∀ t ∈ (validSnapTimes (liveEntries l)).filter (fun t => decide (t ≤ T)),
          t ≤ FindSnapTimeForEventTime l T) := by
  have heq : FindSnapTimeForEventTime l T =
      firstTimeLE T (validSnapTimes (liveEntries l)).reverse := by
    unfold FindSnapTimeForEventTime
    rw [findSnapLoop_eq_firstTimeLE, validSnapTimes_reverse]
  have hdesc : List.Pairwise (fun a b => b < a)
      (validSnapTimes (liveEntries l)).reverse := by
    rw [List.pairwise_reverse]
    exact hsorted
  obtain ⟨hnone, hsome⟩ := firstTimeLE_spec T _ hdesc
  have hfilt : (validSnapTimes (liveEntries l)).reverse.filter (fun t => decide (t ≤ T)) =
      ((validSnapTimes (liveEntries l)).filter (fun t => decide (t ≤ T))).reverse := by
    rw [List.filter_reverse]
  constructor
  · intro hemp
    rw [heq]
    refine hnone ?_
    rw [hfilt, hemp]
    rfl
  · intro hne
    have hne' : (validSnapTimes (liveEntries l)).reverse.filter (fun t => decide (t ≤ T)) ≠ [] := by
      rw [hfilt]
      simpa using hne
    obtain ⟨hmem, hmax⟩ := hsome hne'
    rw [hfilt] at hmem hmax
    rw [heq]
    refine ⟨List.mem_reverse.mp hmem, ?_⟩
    intro t ht
    exact hmax t (List.mem_reverse.mpr ht)

set_option maxRecDepth 100000 in
/-- Witness for C3 (the spec's concrete scenario): two snapshots at times 0
and 4 with actions between; a target time of 2 (strictly between them) finds
the first snapshot's timestamp 0, and a target before every snapshot yields
`-1`. -/
theorem claim_C3_find_snap_time_witness :
    FindSnapTimeForEventTime (GetNextAvailableEntry (GetNextAvailableEntry (GetNextAvailableEntry (GetNextAvailableEntry (GetNextAvailableEntry [] { EventKind := EventKind.SnapshotTag, EventTimeStamp := 0, RestoreTimestamp := 0 }) { EventKind := EventKind.SetPropertyActionTag, EventTimeStamp := 1 }) { EventKind := EventKind.SetPropertyActionTag, EventTimeStamp := 2 }) { EventKind := EventKind.SetPropertyActionTag, EventTimeStamp := 3 }) { EventKind := EventKind.SnapshotTag, EventTimeStamp := 4, RestoreTimestamp := 4 }) 2 = 0 := by
  have h := claim_C3_find_snap_time
    (GetNextAvailableEntry (GetNextAvailableEntry (GetNextAvailableEntry (GetNextAvailableEntry (GetNextAvailableEntry [] { EventKind := EventKind.SnapshotTag, EventTimeStamp := 0, RestoreTimestamp := 0 }) { EventKind := EventKind.SetPropertyActionTag, EventTimeStamp := 1 }) { EventKind := EventKind.SetPropertyActionTag, EventTimeStamp := 2 }) { EventKind := EventKind.SetPropertyActionTag, EventTimeStamp := 3 }) { EventKind := EventKind.SnapshotTag, EventTimeStamp := 4, RestoreTimestamp := 4 })
    2 (by decide)
  have hmem := (h.2 (by decide)).1
  have hmax := (h.2 (by decide)).2
  revert hmem hmax
  decide

/-- C2: For every sequence of record operations performed by a single
`EventLog` instance (starting from the freshly constructed state), the
`EventTimeStamp` values of the records observed by iterating the event list
from first to last are strictly increasing, and the stamps the instance
assigns over time are strictly increasing — never reused.  During replay,
advancing the position keeps the running event-time counter equal to the
`EventTimeStamp` of the iterator's current event whenever the iterator is
valid (the diagnostics assert of `AdvanceTimeAndPositionForReplay`), given
that the recorded entries carry consecutive stamps as the record path
produces them. -/
theorem claim_C2_event_time_monotonic (ops : List RecordOp) :
    (List.Chain' (· < ·)
        (eventTimes (runRecordOps ops initRecordState).1.eventList) ∧
      List.Chain' (· < ·) (runRecordOps ops initRecordState).2) ∧
    ∀ rs : ReplayState, consecutiveTimestamps rs.entries →
      replayIterValid rs = true →
      rs.eventTimeCtr = (replayCurrent rs).EventTimeStamp →
      replayIterValid (AdvanceTimeAndPositionForReplay rs) = false ∨
        (AdvanceTimeAndPositionForReplay rs).eventTimeCtr =
          (replayCurrent (AdvanceTimeAndPositionForReplay rs)).EventTimeStamp := by
  constructor
  · have hinit : recordStampInvariant initRecordState := by decide
    obtain ⟨hinv, htrace, _, _⟩ := runRecordOps_spec ops initRecordState hinit
    refine ⟨?_, htrace⟩
    have hchain := hinv.2.1
    unfold consecutiveTimestamps at hchain
    unfold eventTimes
    rw [List.chain'_map]
    exact hchain.imp (fun a b hab => by omega)
  · intro rs hcons hvalid hsync
    by_cases hnext : rs.pos + 1 < rs.entries.length
    · right
      have hlen : rs.pos < rs.entries.length := of_decide_eq_true hvalid
      have hc1 : replayCurrent rs = rs.entries.get ⟨rs.pos, hlen⟩ := by
        unfold replayCurrent
        rw [List.getD_eq_getElem?_getD, List.getElem?_eq_getElem hlen]
        rfl
      have hc2 : replayCurrent (AdvanceTimeAndPositionForReplay rs) =
          rs.entries.get ⟨rs.pos + 1, hnext⟩ := by
        unfold replayCurrent AdvanceTimeAndPositionForReplay
        simp only
        rw [List.getD_eq_getElem?_getD, List.getElem?_eq_getElem hnext]
        rfl
      have hstep := List.chain'_iff_get.mp hcons rs.pos (by omega)
      show rs.eventTimeCtr + 1 = _
      rw [hc2, hsync, hc1]
      omega
    · left
      unfold replayIterValid AdvanceTimeAndPositionForReplay
      simp only [decide_eq_false_iff_not]
      omega

/-- Witness for C2: recording a double, a snapshot, then pruning with history
length 1 yields strictly increasing stamps and trace; advancing a concrete
in-sync replay state stays in sync. -/
theorem claim_C2_event_time_monotonic_witness :
    (List.Chain' (· < ·)
        (eventTimes (runRecordOps [RecordOp.record EventKind.DoubleTag 0, RecordOp.record EventKind.SnapshotTag 0, RecordOp.prune 1] initRecordState).1.eventList) ∧
      List.Chain' (· < ·) (runRecordOps [RecordOp.record EventKind.DoubleTag 0, RecordOp.record EventKind.SnapshotTag 0, RecordOp.prune 1] initRecordState).2) ∧
    (replayIterValid (AdvanceTimeAndPositionForReplay { eventTimeCtr := 0, entries := [{ EventKind := EventKind.DoubleTag, EventTimeStamp := 0 }, { EventKind := EventKind.StringTag, EventTimeStamp := 1 }], pos := 0 }) = false ∨
      (AdvanceTimeAndPositionForReplay { eventTimeCtr := 0, entries := [{ EventKind := EventKind.DoubleTag, EventTimeStamp := 0 }, { EventKind := EventKind.StringTag, EventTimeStamp := 1 }], pos := 0 }).eventTimeCtr =
        (replayCurrent (AdvanceTimeAndPositionForReplay { eventTimeCtr := 0, entries := [{ EventKind := EventKind.DoubleTag, EventTimeStamp := 0 }, { EventKind := EventKind.StringTag, EventTimeStamp := 1 }], pos := 0 })).EventTimeStamp) := by
  have h := claim_C2_event_time_monotonic
    [RecordOp.record EventKind.DoubleTag 0, RecordOp.record EventKind.SnapshotTag 0, RecordOp.prune 1]
  exact ⟨h.1, h.2
    { eventTimeCtr := 0, entries := [{ EventKind := EventKind.DoubleTag, EventTimeStamp := 0 }, { EventKind := EventKind.StringTag, EventTimeStamp := 1 }], pos := 0 }
    (by decide) (by decide) (by decide)⟩

/-- C5 counterexample: with the mode stack of the spec's scenario — base
`RecordMode` with `DebuggerSuppressBreakpoints` (and even
`DebuggerLogBreakpoints`) pushed — `ProcessBPInfoPreBreak` returns `true`
(the breakpoint fires) and records nothing, because outside debugger mode the
first check (`!ShouldPerformDebuggerAction()`) short-circuits to "always
fire"; the claim's expected return of `false` is contradicted. -/
theorem claim_C5_counterexample :
    (ProcessBPInfoPreBreak { currentMode := modeStackOr [TTDMode.RecordMode, TTDMode.DebuggerSuppressBreakpoints, TTDMode.DebuggerLogBreakpoints], activeBPId := 7, activeLine := 3, activeColumn := 1, activeFunctionTime := -1, activeLoopTime := -1, pendingTTDBP := some { RootEventTime := 10, FunctionTime := 2, LoopTime := 0, Line := 5, Column := 2 }, continueBreakPoint := none, topFrameSrcLine := 3, topFrameSrcColumn := 1, topFrameFunctionTime := 1, topFrameCurrentStatementLoopTime := 0, currentLoc := { RootEventTime := 1, FunctionTime := 1, LoopTime := 0, Line := 3, Column := 1 } }).1 = true ∧
    (ProcessBPInfoPreBreak { currentMode := modeStackOr [TTDMode.RecordMode, TTDMode.DebuggerSuppressBreakpoints, TTDMode.DebuggerLogBreakpoints], activeBPId := 7, activeLine := 3, activeColumn := 1, activeFunctionTime := -1, activeLoopTime := -1, pendingTTDBP := some { RootEventTime := 10, FunctionTime := 2, LoopTime := 0, Line := 5, Column := 2 }, continueBreakPoint := none, topFrameSrcLine := 3, topFrameSrcColumn := 1, topFrameFunctionTime := 1, topFrameCurrentStatementLoopTime := 0, currentLoc := { RootEventTime := 1, FunctionTime := 1, LoopTime := 0, Line := 3, Column := 1 } }).2.continueBreakPoint = none := by
  constructor <;> rfl

/-- C5 (amended): breakpoint suppression requires the context's
should-perform-debugger-action flag, so the scenario's base mode must be
`DebuggerMode` with `CurrentlyEnabled`: with computed mode
`DebuggerMode | CurrentlyEnabled | DebuggerSuppressBreakpoints` (optionally
with `DebuggerLogBreakpoints`), `ProcessBPInfoPreBreak` returns `false`
(suppressed), and exactly when `DebuggerLogBreakpoints` is also set it passes
the current location to `AddCurrentLocationDuringScan`, which records it as
the candidate previous breakpoint when a pending target exists and the
location is before it. -/
theorem claim_C5_breakpoint_suppression_amended (s : BPState)
    (hmode : s.currentMode = TTDMode.DebuggerMode ||| TTDMode.CurrentlyEnabled ||| TTDMode.DebuggerSuppressBreakpoints ∨
      s.currentMode = TTDMode.DebuggerMode ||| TTDMode.CurrentlyEnabled ||| TTDMode.DebuggerSuppressBreakpoints ||| TTDMode.DebuggerLogBreakpoints) :
    (ProcessBPInfoPreBreak s).1 = false ∧
      (s.currentMode = TTDMode.DebuggerMode ||| TTDMode.CurrentlyEnabled ||| TTDMode.DebuggerSuppressBreakpoints →
        (ProcessBPInfoPreBreak s).2 = s) ∧
      (s.currentMode = TTDMode.DebuggerMode ||| TTDMode.CurrentlyEnabled ||| TTDMode.DebuggerSuppressBreakpoints ||| TTDMode.DebuggerLogBreakpoints →
        (ProcessBPInfoPreBreak s).2 = AddCurrentLocationDuringScan s) := by
  have hres : ProcessBPInfoPreBreak s =
      (false, if ShouldRecordBreakpointsDuringTimeTravelScan s.currentMode then AddCurrentLocationDuringScan s else s) := by
    unfold ProcessBPInfoPreBreak
    have hdbg : (SetModeFlagsOnContext s.currentMode).TTDShouldPerformDebuggerAction = true := by
      have : (SetModeFlagsOnContext s.currentMode).TTDShouldPerformDebuggerAction =
          ((s.currentMode &&& (TTDMode.DebuggerMode ||| TTDMode.CurrentlyEnabled ||| TTDMode.AnyExcludedMode)) ==
            (TTDMode.DebuggerMode ||| TTDMode.CurrentlyEnabled)) := rfl
      rw [this]
      rcases hmode with hm | hm <;> rw [hm] <;> decide
    have hsup : ShouldSuppressBreakpointsForTimeTravelMove s.currentMode = true := by
      unfold ShouldSuppressBreakpointsForTimeTravelMove
      rcases hmode with hm | hm <;> rw [hm] <;> decide
    rw [hdbg, hsup]
    rfl
  refine ⟨by rw [hres], ?_, ?_⟩
  · intro hm
    rw [hres]
    have : ShouldRecordBreakpointsDuringTimeTravelScan s.currentMode = false := by
      unfold ShouldRecordBreakpointsDuringTimeTravelScan
      rw [hm]
      decide
    rw [this]
    rfl
  · intro hm
    rw [hres]
    have : ShouldRecordBreakpointsDuringTimeTravelScan s.currentMode = true := by
      unfold ShouldRecordBreakpointsDuringTimeTravelScan
      rw [hm]
      decide
    rw [this]
    rfl

/-- Witness for the amended C5: with debugger base mode, `CurrentlyEnabled`,
both suppress and log bits set, a pending target after the current location:
the breakpoint is suppressed and the location is recorded as the continue
candidate. -/
theorem claim_C5_breakpoint_suppression_amended_witness :
    (ProcessBPInfoPreBreak { currentMode := TTDMode.DebuggerMode ||| TTDMode.CurrentlyEnabled ||| TTDMode.DebuggerSuppressBreakpoints ||| TTDMode.DebuggerLogBreakpoints, activeBPId := -1, activeLine := 0, activeColumn := 0, activeFunctionTime := -1, activeLoopTime := -1, pendingTTDBP := some { RootEventTime := 10, FunctionTime := 2, LoopTime := 0, Line := 5, Column := 2 }, continueBreakPoint := none, topFrameSrcLine := 3, topFrameSrcColumn := 1, topFrameFunctionTime := 1, topFrameCurrentStatementLoopTime := 0, currentLoc := { RootEventTime := 1, FunctionTime := 1, LoopTime := 0, Line := 3, Column := 1 } }).1 = false ∧
    (ProcessBPInfoPreBreak { currentMode := TTDMode.DebuggerMode ||| TTDMode.CurrentlyEnabled ||| TTDMode.DebuggerSuppressBreakpoints ||| TTDMode.DebuggerLogBreakpoints, activeBPId := -1, activeLine := 0, activeColumn := 0, activeFunctionTime := -1, activeLoopTime := -1, pendingTTDBP := some { RootEventTime := 10, FunctionTime := 2, LoopTime := 0, Line := 5, Column := 2 }, continueBreakPoint := none, topFrameSrcLine := 3, topFrameSrcColumn := 1, topFrameFunctionTime := 1, topFrameCurrentStatementLoopTime := 0, currentLoc := { RootEventTime := 1, FunctionTime := 1, LoopTime := 0, Line := 3, Column := 1 } }).2.continueBreakPoint = some { RootEventTime := 1, FunctionTime := 1, LoopTime := 0, Line := 3, Column := 1 } := by
  have h := claim_C5_breakpoint_suppression_amended
    { currentMode := TTDMode.DebuggerMode ||| TTDMode.CurrentlyEnabled ||| TTDMode.DebuggerSuppressBreakpoints ||| TTDMode.DebuggerLogBreakpoints, activeBPId := -1, activeLine := 0, activeColumn := 0, activeFunctionTime := -1, activeLoopTime := -1, pendingTTDBP := some { RootEventTime := 10, FunctionTime := 2, LoopTime := 0, Line := 5, Column := 2 }, continueBreakPoint := none, topFrameSrcLine := 3, topFrameSrcColumn := 1, topFrameFunctionTime := 1, topFrameCurrentStatementLoopTime := 0, currentLoc := { RootEventTime := 1, FunctionTime := 1, LoopTime := 0, Line := 3, Column := 1 } }
    (Or.inr rfl)
  refine ⟨h.1, ?_⟩
  rw [h.2.2 rfl]
  rfl

/-- C1: For every event log, parsing the output of emitting it reconstructs
an equivalent log: `ParseLogInto` reads exactly the sections `EmitLog` wrote
in the same order (header, events in time order via the registry
emit/parse functions, property records, the three top-level-script tables),
every record's payload is reproduced bit-for-bit (the parsed live sequence
equals the original live sequence), and replaying the parsed log produces
the same result sequence as replaying the original in-memory log. -/
theorem claim_C1_emit_parse_round_trip (log : EventLogSerializeState)
    (h : WFList log.eventList) :
    ∃ P, ParseLogInto (EmitLog log) = some P ∧
      liveEntries P.eventList = liveEntries log.eventList ∧
      P.propertyRecordList = log.properties ∧
      P.loadedTopLevelScripts = log.loadedTopLevelScripts ∧
      P.newFunctionTopLevelScripts = log.newFunctionTopLevelScripts ∧
      P.evalTopLevelScripts = log.evalTopLevelScripts ∧
      replayResultSequence P.eventList = replayResultSequence log.eventList := by
  obtain ⟨P, hP, hlive, _, hprops, hl, hn, he⟩ := ParseLogInto_EmitLog log h
  refine ⟨P, hP, hlive, hprops, hl, hn, he, ?_⟩
  unfold replayResultSequence
  rw [hlive]

set_option maxRecDepth 100000 in
/-- Witness for C1: a concrete log with one recorded double event, one
property record, and script tables round-trips through emit and parse. -/
theorem claim_C1_emit_parse_round_trip_witness :
    WFList (GetNextAvailableEntry [] { EventKind := EventKind.DoubleTag, EventTimeStamp := 0, RestoreTimestamp := 0, CallEventTime := 0, CallbackDepth := 0, HasRtrSnap := false, ResultStatus := 0, Payload := 42 }) ∧
    ∃ P, ParseLogInto (EmitLog { eventList := GetNextAvailableEntry [] { EventKind := EventKind.DoubleTag, EventTimeStamp := 0, RestoreTimestamp := 0, CallEventTime := 0, CallbackDepth := 0, HasRtrSnap := false, ResultStatus := 0, Payload := 42 }, properties := [5], loadedTopLevelScripts := [11], newFunctionTopLevelScripts := [], evalTopLevelScripts := [13], usedMemory := 100, reservedMemory := 200 }) = some P ∧
      liveEntries P.eventList = liveEntries (GetNextAvailableEntry [] { EventKind := EventKind.DoubleTag, EventTimeStamp := 0, RestoreTimestamp := 0, CallEventTime := 0, CallbackDepth := 0, HasRtrSnap := false, ResultStatus := 0, Payload := 42 }) ∧
      P.propertyRecordList = [5] ∧
      P.loadedTopLevelScripts = [11] ∧
      P.newFunctionTopLevelScripts = [] ∧
      P.evalTopLevelScripts = [13] ∧
      replayResultSequence P.eventList = replayResultSequence (GetNextAvailableEntry [] { EventKind := EventKind.DoubleTag, EventTimeStamp := 0, RestoreTimestamp := 0, CallEventTime := 0, CallbackDepth := 0, HasRtrSnap := false, ResultStatus := 0, Payload := 42 }) :=
  ⟨by decide, claim_C1_emit_parse_round_trip { eventList := GetNextAvailableEntry [] { EventKind := EventKind.DoubleTag, EventTimeStamp := 0, RestoreTimestamp := 0, CallEventTime := 0, CallbackDepth := 0, HasRtrSnap := false, ResultStatus := 0, Payload := 42 }, properties := [5], loadedTopLevelScripts := [11], newFunctionTopLevelScripts := [], evalTopLevelScripts := [13], usedMemory := 100, reservedMemory := 200 } (by decide)⟩

end TTD
